import Mathlib

/-!
Shallow embedding of the EKSImageDeployer CLI (Go).

The repository ships two variants of the same program:
  * `src/main.go`                — definitions suffixed `Main` below;
  * `src/unnamed/part_001`       — definitions suffixed `P1` below.

Go maps are modelled as association lists with unique keys kept in a
deterministic order (`upsert` replaces in place or appends); lookup is
first-match, which coincides with Go map lookup because keys stay unique.
External effects (kubectl invocations, stdin) are modelled by a `World`
oracle; each pipeline function returns the list of issued commands, the
log events it records, and its error result, exactly following the Go
control flow.
-/

set_option autoImplicit false

namespace EKS

/-- ServiceInfo, from `type ServiceInfo struct` (both variants). -/
structure ServiceInfo where
  enabled : Bool
  version : String
  deriving Repr, DecidableEq

/-- ServiceGroup, from `type ServiceGroup struct` (both variants). -/
structure ServiceGroup where
  enabled : Bool
  version : String
  services : List String
  deriving Repr, DecidableEq

/-- ServiceConfig, from `type ServiceConfig struct`: the two JSON maps are
modelled as association lists (Go maps: unique keys, here in list order). -/
structure ServiceConfig where
  singleServices : List (String × ServiceInfo)
  serviceGroups : List (String × ServiceGroup)
  deriving Repr, DecidableEq

/-- Environment, from `type Environment struct`. -/
structure Environment where
  context : String
  registry : String
  namespaceName : String
  deriving Repr, DecidableEq

/-- Config, from `type Config struct`. -/
structure Config where
  environments : List (String × Environment)
  deriving Repr, DecidableEq

/-- A Go `map[string]string`, as the ordered list of its entries. -/
abbrev SvcMap := List (String × String)

/-- Go map lookup (keys are unique, so first match is the entry). -/
def lookupA {α : Type} (l : List (String × α)) (k : String) : Option α :=
  (l.find? (fun p => p.1 = k)).map (fun p => p.2)

/-- Go map assignment `m[k] = v`: replace the existing entry in place
(keys are unique, so at most one), or append a fresh one. -/
def upsert : SvcMap → String → String → SvcMap
  | [], k, v => [(k, v)]
  | p :: rest, k, v => if p.1 = k then (k, v) :: rest else p :: upsert rest k v

/-- Lookup in a `SvcMap`. -/
def mapFind (m : SvcMap) (k : String) : Option String := lookupA m k

/-- Whitespace recognised by Go's `strings.TrimSpace`, restricted to the
ASCII blanks that can occur in the trimmed inputs here. -/
def isSpaceChar (c : Char) : Bool := c = ' ' || c = '\t' || c = '\n' || c = '\r'

/-- strings.TrimSpace, modelled on the character list so that it
evaluates. -/
def trimS (s : String) : String :=
  String.mk (((s.data.dropWhile isSpaceChar).reverse.dropWhile isSpaceChar).reverse)

/-- strings.ToLower (the compared inputs are ASCII `y`/`Y`). -/
def toLowerS (s : String) : String := String.mk (s.data.map Char.toLower)

/-- strings.Split for a single-character separator (the only separators
used are tab, newline, comma and colon), with Go semantics: the empty
string yields one empty field. -/
def splitCharList (c : Char) : List Char → List (List Char)
  | [] => [[]]
  | ch :: rest =>
    if ch = c then [] :: splitCharList c rest
    else
      match splitCharList c rest with
      | h :: t => (ch :: h) :: t
      | [] => [[ch]]

/-- strings.Split of a string on a one-character separator. -/
def splitChar (c : Char) (s : String) : List String :=
  (splitCharList c s.data).map String.mk

/-- Does the list start with the (pattern) prefix. -/
def startsWithList : List Char → List Char → Bool
  | _, [] => true
  | [], _ :: _ => false
  | a :: s, b :: p => a = b && startsWithList s p

/-- Left-to-right non-overlapping replacement, with fuel bounded by the
input length. -/
def replaceFuel (pat rep : List Char) : Nat → List Char → List Char
  | _, [] => []
  | 0, l => l
  | fuel + 1, ch :: rest =>
    if startsWithList (ch :: rest) pat then
      rep ++ replaceFuel pat rep fuel (List.drop (pat.length - 1) rest)
    else ch :: replaceFuel pat rep fuel rest

/-- strings.ReplaceAll for a non-empty pattern (its one use strips
`exit status 1` from kubectl output). -/
def replaceS (s pat rep : String) : String :=
  if pat = "" then s
  else String.mk (replaceFuel pat.data rep.data s.data.length s.data)

/-- selectVersion, from `func (s *Service) selectVersion` (identical in both
variants): a non-empty input version wins over the default. -/
def selectVersion (inputVersion defaultVersion : String) : String :=
  if inputVersion ≠ "" then inputVersion else defaultVersion

/-- getEnabledServices, from `func (s *Service) getEnabledServices`
(identical in both variants): enabled single services plus the members of
every enabled group. -/
def getEnabledServices (s : ServiceConfig) : List String :=
  ((s.singleServices.filter (fun p => p.2.enabled)).map (fun p => p.1)) ++
    ((s.serviceGroups.filter (fun p => p.2.enabled)).foldl
      (fun acc p => acc ++ p.2.services) [])

/-- One token step of the main.go resolver (`src/main.go` lines 262-274):
the token is not trimmed, and both the single-service and the group blocks
run for the same token (no `continue`). -/
def selectServiceTokenMain (s : ServiceConfig) (versionInput : String)
    (m : SvcMap) (service : String) : SvcMap :=
  let m1 := match lookupA s.singleServices service with
    | some info =>
        if info.enabled then upsert m service (selectVersion versionInput info.version)
        else m
    | none => m
  match lookupA s.serviceGroups service with
  | some group =>
      if group.enabled then
        group.services.foldl
          (fun m sub => upsert m sub (selectVersion versionInput group.version)) m1
      else m1
  | none => m1

/-- getSelectedServices, from `src/main.go` lines 238-277.  Note: in the
empty-scope branch this variant uses the per-entry default versions and
never consults `versionInput`; only the token branch calls `selectVersion`. -/
def getSelectedServicesMain (s : ServiceConfig) (servicesInput versionInput : String) :
    SvcMap :=
  if servicesInput = "" then
    let m := s.singleServices.foldl
      (fun m p => if p.2.enabled then upsert m p.1 p.2.version else m) []
    s.serviceGroups.foldl
      (fun m p =>
        if p.2.enabled then
          p.2.services.foldl (fun m svc => upsert m svc p.2.version) m
        else m) m
  else
    (splitChar ',' servicesInput).foldl (selectServiceTokenMain s versionInput) []

/-- One token step of the `part_001` resolver (`src/unnamed/part_001`
lines 226-245): the token is trimmed, an enabled single service wins and
`continue`s past the group check; a group is consulted only otherwise. -/
def selectServiceTokenP1 (s : ServiceConfig) (versionInput : String)
    (m : SvcMap) (rawToken : String) : SvcMap :=
  let service := trimS rawToken
  let groupStep : SvcMap :=
    match lookupA s.serviceGroups service with
    | some group =>
        if group.enabled then
          group.services.foldl
            (fun m sub => upsert m sub (selectVersion versionInput group.version)) m
        else m
    | none => m
  match lookupA s.singleServices service with
  | some info =>
      if info.enabled then upsert m service (selectVersion versionInput info.version)
      else groupStep
  | none => groupStep

/-- getSelectedServices, from `src/unnamed/part_001` lines 202-248: both
branches apply `selectVersion`, and the token branch is
`selectServiceTokenP1`. -/
def getSelectedServicesP1 (s : ServiceConfig) (servicesInput versionInput : String) :
    SvcMap :=
  if servicesInput = "" then
    let m := s.singleServices.foldl
      (fun m p =>
        if p.2.enabled then upsert m p.1 (selectVersion versionInput p.2.version)
        else m) []
    s.serviceGroups.foldl
      (fun m p =>
        if p.2.enabled then
          p.2.services.foldl
            (fun m svc => upsert m svc (selectVersion versionInput p.2.version)) m
        else m) m
  else
    (splitChar ',' servicesInput).foldl (selectServiceTokenP1 s versionInput) []

/-- The names of every enabled single service followed by every enabled
group name, in configuration order (the explicit scope list of claim C4). -/
def enabledNamesMain (s : ServiceConfig) : List String :=
  ((s.singleServices.filter (fun p => p.2.enabled)).map (fun p => p.1)) ++
    ((s.serviceGroups.filter (fun p => p.2.enabled)).map (fun p => p.1))

/-- One kubectl invocation, by the call sites in both variants. -/
inductive Cmd where
  | currentContext : Cmd
  | useContext : String → Cmd
  | getNodes : Cmd
  | getDeployments : String → Cmd
  | setImage : String → String → String → Cmd
  deriving Repr, DecidableEq

/-- External world oracle: the outcome of each kubectl subprocess
(`Except.error` carries the combined output used in error messages,
`Except.ok` the stdout) and the line read from stdin at the confirm
prompt. -/
structure World where
  currentContextResult : Except String String
  useContextResult : String → Except String String
  getNodesResult : Except String String
  getDeploymentsResult : String → Except String String
  setImageResult : String → Except String String
  userInput : String

/-- One `writeLog` / `logger.Log` call site of the Deploy and Check
pipelines (payload formatting elided; the cancellation and per-service
result messages are kept verbatim). -/
inductive LogEvent where
  | deployStart (env servicesInput versionInput : String)
  | invalidEnv (env : String)
  | switchFailed
  | switched (context : String)
  | snapshotWarn
  | noServices
  | selected
  | confirmed
  | cancelled
  | deployResult (msg : String)
  | postSnapshotWarn
  | done
  deriving Repr, DecidableEq

/-- The observable outcome of one Deploy/Check invocation: the kubectl
commands issued in order, the log events recorded, and the returned error
(`none` = the Go function returned nil). -/
structure RunOut where
  trace : List Cmd
  logs : List LogEvent
  result : Option String
  deriving Repr, DecidableEq

/-- `main`'s exit status from the returned error: `os.Exit(1)` on a
non-nil error, 0 otherwise (both variants). -/
def exitCode (result : Option String) : Nat :=
  if result.isSome then 1 else 0

/-- The image reference built by deployService:
`fmt.Sprintf("%s/%s:%s", registry, service, version)`. -/
def imageOf (registry service version : String) : String :=
  registry ++ "/" ++ service ++ ":" ++ version

/-- The per-service failure message of deployService (both variants):
`"❌ %s 发布失败: %s"` with `"exit status 1"` stripped and the output
trimmed. -/
def failMsg (service output : String) : String :=
  "❌ " ++ service ++ " 发布失败: " ++ trimS (replaceS output "exit status 1" "")

/-- The line-parsing loop of getCurrentVersions (identical in both
variants): keep rows with exactly two tab-separated fields whose first
field is an enabled service and whose image reference splits on `:` into
exactly two parts, recording the second part as the version. -/
def parseLines (enabled : List String) : List String → SvcMap → SvcMap
  | [], m => m
  | line :: rest, m =>
    if line = "" then parseLines enabled rest m
    else
      match splitChar '\t' line with
      | [serviceName, image] =>
          if enabled.contains serviceName then
            match splitChar ':' image with
            | [_, tag] => parseLines enabled rest (upsert m serviceName tag)
            | _ => parseLines enabled rest m
          else parseLines enabled rest m
      | _ => parseLines enabled rest m

/-- getCurrentVersions' parse of the raw kubectl output: trim, split into
lines, then `parseLines` starting from the empty map. -/
def parseVersions (enabled : List String) (output : String) : SvcMap :=
  parseLines enabled (splitChar '\n' (trimS output)) []

/-- getCurrentVersions, from `src/main.go` lines 183-212 (the `part_001`
variant at lines 147-178 behaves identically): issue the deployment query;
on failure return the error (the caller's map stays empty), otherwise the
parsed versions of enabled services. -/
def getCurrentVersionsMain (w : World) (s : ServiceConfig) (namespaceName : String) :
    List Cmd × SvcMap × Option String :=
  match w.getDeploymentsResult namespaceName with
  | .error out => ([Cmd.getDeployments namespaceName], [], some ("获取部署信息失败: " ++ out))
  | .ok out => ([Cmd.getDeployments namespaceName], parseVersions (getEnabledServices s) out, none)

/-- The switch-then-probe tail of main.go's switchContext (lines 302-313):
`kubectl config use-context`, then a `kubectl get nodes` reachability
probe, each failure fatal. -/
def switchProbeMain (w : World) (context : String) : List Cmd × Option String :=
  match w.useContextResult context with
  | .error out => ([Cmd.useContext context], some ("切换集群失败: " ++ out))
  | .ok _ =>
    match w.getNodesResult with
    | .error out =>
        ([Cmd.useContext context, Cmd.getNodes], some ("集群连接检查失败: " ++ out))
    | .ok _ => ([Cmd.useContext context, Cmd.getNodes], none)

/-- switchContext, from `src/main.go` lines 288-314: read the current
context and no-op when it already equals the target; otherwise switch and
then probe. -/
def switchContextMain (w : World) (context : String) : List Cmd × Option String :=
  match w.currentContextResult with
  | .ok out =>
      if trimS out = context then ([Cmd.currentContext], none)
      else (Cmd.currentContext :: (switchProbeMain w context).1, (switchProbeMain w context).2)
  | .error _ =>
      (Cmd.currentContext :: (switchProbeMain w context).1, (switchProbeMain w context).2)

/-- switchContext, from `src/unnamed/part_001` lines 259-265: always issue
the context switch; no current-context check and no reachability probe. -/
def switchContextP1 (w : World) (context : String) : List Cmd × Option String :=
  match w.useContextResult context with
  | .error out => ([Cmd.useContext context], some ("切换上下文失败: " ++ out))
  | .ok _ => ([Cmd.useContext context], none)

/-- deployService, from `src/main.go` lines 467-487: issue the image
update and produce the per-service result string. -/
def deployServiceMain (w : World) (service registry namespaceName version : String) :
    Cmd × String :=
  (Cmd.setImage service (imageOf registry service version) namespaceName,
    match w.setImageResult service with
    | .error out => failMsg service out
    | .ok _ => "✅ " ++ service ++ " 发布成功")

/-- deployService, from `src/unnamed/part_001` lines 276-292: issue the
image update; a failure is returned as an error, success as `none`. -/
def deployServiceP1 (w : World) (service registry namespaceName version : String) :
    Cmd × Option String :=
  (Cmd.setImage service (imageOf registry service version) namespaceName,
    match w.setImageResult service with
    | .error out => some (failMsg service out)
    | .ok _ => none)

/-- The fan-out / fan-in of `part_001`'s Deploy (lines 337-358): one
update per selected entry, all of them issued, and the failures collected
(channel collection order modelled as entry order). -/
def deployPhaseP1 (w : World) (sel : SvcMap) (registry namespaceName : String) :
    List Cmd × List String :=
  let results := sel.map (fun p => deployServiceP1 w p.1 registry namespaceName p.2)
  (results.map (fun r => r.1), (results.map (fun r => r.2)).filterMap id)

/-- Predicate for image-update commands. -/
def isSetImage : Cmd → Bool
  | Cmd.setImage _ _ _ => true
  | _ => false

/-- Predicate for deployment-read commands. -/
def isDeployRead : Cmd → Bool
  | Cmd.getDeployments _ => true
  | _ => false

/-- Deploy, from `src/main.go` lines 352-433: env lookup, context switch,
best-effort snapshot, resolve, confirm gate, parallel apply (modelled
sequentially; the WaitGroup join is the end of the phase), second
snapshot.  The result strings are collected and printed but the function
always returns nil after the confirm gate. -/
def DeployMain (w : World) (cfg : Config) (s : ServiceConfig)
    (env servicesInput versionInput : String) : RunOut :=
  let logs0 := [LogEvent.deployStart env servicesInput versionInput]
  match lookupA cfg.environments env with
  | none => ⟨[], logs0 ++ [LogEvent.invalidEnv env], some ("无效的环境: " ++ env)⟩
  | some envConfig =>
    match switchContextMain w envConfig.context with
    | (swTrace, some e) => ⟨swTrace, logs0 ++ [LogEvent.switchFailed], some e⟩
    | (swTrace, none) =>
      let logs1 := logs0 ++ [LogEvent.switched envConfig.context]
      let cv := getCurrentVersionsMain w s envConfig.namespaceName
      let logs2 := logs1 ++ (if cv.2.2.isSome then [LogEvent.snapshotWarn] else [])
      let sel := getSelectedServicesMain s servicesInput versionInput
      if sel.isEmpty then
        ⟨swTrace ++ cv.1, logs2 ++ [LogEvent.noServices], some "没有可用的服务进行发布"⟩
      else
        let logs3 := logs2 ++ [LogEvent.selected]
        if toLowerS w.userInput = "y" then
          let results := sel.map
            (fun p => deployServiceMain w p.1 envConfig.registry envConfig.namespaceName p.2)
          let logs4 := logs3 ++ [LogEvent.confirmed] ++
            (results.map (fun r => LogEvent.deployResult r.2))
          let cv2 := getCurrentVersionsMain w s envConfig.namespaceName
          let logs5 := logs4 ++
            (if cv2.2.2.isSome then [LogEvent.postSnapshotWarn] else []) ++ [LogEvent.done]
          ⟨swTrace ++ cv.1 ++ results.map (fun r => r.1) ++ cv2.1, logs5, none⟩
        else
          ⟨swTrace ++ cv.1, logs3 ++ [LogEvent.cancelled], none⟩

/-- Check, from `src/main.go` lines 436-464: like Deploy up to the
preview, with the snapshot failure only warned about; no confirm gate and
no update. -/
def CheckMain (w : World) (cfg : Config) (s : ServiceConfig)
    (env servicesInput versionInput : String) : RunOut :=
  match lookupA cfg.environments env with
  | none => ⟨[], [], some ("无效的环境: " ++ env)⟩
  | some envConfig =>
    match switchContextMain w envConfig.context with
    | (swTrace, some e) => ⟨swTrace, [], some e⟩
    | (swTrace, none) =>
      let cv := getCurrentVersionsMain w s envConfig.namespaceName
      let sel := getSelectedServicesMain s servicesInput versionInput
      if sel.isEmpty then
        ⟨swTrace ++ cv.1, [], some "没有可用的服务进行检查"⟩
      else
        ⟨swTrace ++ cv.1, [], none⟩

/-- Deploy, from `src/unnamed/part_001` lines 295-376: as `DeployMain`,
except that the context switch is `switchContextP1` and the collected
per-service errors, when non-empty, are joined into the returned error
before the second snapshot is taken. -/
def DeployP1 (w : World) (cfg : Config) (s : ServiceConfig)
    (env servicesInput versionInput : String) : RunOut :=
  let logs0 := [LogEvent.deployStart env servicesInput versionInput]
  match lookupA cfg.environments env with
  | none => ⟨[], logs0, some ("无效的环境: " ++ env)⟩
  | some envConfig =>
    match switchContextP1 w envConfig.context with
    | (swTrace, some e) => ⟨swTrace, logs0, some e⟩
    | (swTrace, none) =>
      let logs1 := logs0 ++ [LogEvent.switched envConfig.context]
      let cv := getCurrentVersionsMain w s envConfig.namespaceName
      let logs2 := logs1 ++ (if cv.2.2.isSome then [LogEvent.snapshotWarn] else [])
      let sel := getSelectedServicesP1 s servicesInput versionInput
      if sel.isEmpty then
        ⟨swTrace ++ cv.1, logs2, some "没有可用的服务进行发布"⟩
      else
        let logs3 := logs2 ++ [LogEvent.selected]
        if toLowerS w.userInput = "y" then
          let dep := deployPhaseP1 w sel envConfig.registry envConfig.namespaceName
          let logs4 := logs3 ++ [LogEvent.confirmed]
          if dep.2.isEmpty then
            let cv2 := getCurrentVersionsMain w s envConfig.namespaceName
            let logs5 := logs4 ++
              (if cv2.2.2.isSome then [LogEvent.postSnapshotWarn] else []) ++ [LogEvent.done]
            ⟨swTrace ++ cv.1 ++ dep.1 ++ cv2.1, logs5, none⟩
          else
            ⟨swTrace ++ cv.1 ++ dep.1, logs4,
              some ("部署过程中出现错误:\n" ++ String.intercalate "\n" dep.2)⟩
        else
          ⟨swTrace ++ cv.1, logs3 ++ [LogEvent.cancelled], none⟩

/-- Check, from `src/unnamed/part_001` lines 379-401: unlike the main.go
variant, a snapshot failure is returned immediately as the error. -/
def CheckP1 (w : World) (cfg : Config) (s : ServiceConfig)
    (env servicesInput versionInput : String) : RunOut :=
  match lookupA cfg.environments env with
  | none => ⟨[], [], some ("无效的环境: " ++ env)⟩
  | some envConfig =>
    match switchContextP1 w envConfig.context with
    | (swTrace, some e) => ⟨swTrace, [], some e⟩
    | (swTrace, none) =>
      match getCurrentVersionsMain w s envConfig.namespaceName with
      | (cvTrace, _, some e) => ⟨swTrace ++ cvTrace, [], some e⟩
      | (cvTrace, _, none) =>
        let sel := getSelectedServicesP1 s servicesInput versionInput
        if sel.isEmpty then
          ⟨swTrace ++ cvTrace, [], some "没有可用的服务进行检查"⟩
        else
          ⟨swTrace ++ cvTrace, [], none⟩

/-! ### Concrete fixtures used by witnesses and counterexamples -/

/-- A services.json with one enabled single service (spec scenario). -/
def svcCfg1 : ServiceConfig := ⟨[("docs-fe", ⟨true, "v3.48.2"⟩)], []⟩

/-- A services.json with one enabled single service and one enabled group
(spec scenarios). -/
def svcCfg2 : ServiceConfig :=
  ⟨[("docs-fe", ⟨true, "v3.48.2"⟩)],
    [("nft", ⟨true, "v1.15.5", ["nft-core-be", "nft-ethereum-be"]⟩)]⟩

/-- A services.json with a disabled single service that is a member only
of a disabled group. -/
def svcCfg3 : ServiceConfig :=
  ⟨[("off-svc", ⟨false, "v0"⟩), ("on-svc", ⟨true, "v1"⟩)],
    [("gdis", ⟨false, "v2", ["off-svc", "gmember"]⟩)]⟩

/-- A services.json in which the name `x` is both an enabled single
service and an enabled group. -/
def svcCfgDup : ServiceConfig :=
  ⟨[("x", ⟨true, "v1"⟩)], [("x", ⟨true, "v2", ["m1", "m2"]⟩)]⟩

/-- A services.json with no entries at all: the resolver returns zero
services. -/
def svcCfgEmpty : ServiceConfig := ⟨[], []⟩

/-- A services.json in which `x` is both an enabled single service and an
enabled group, and the earlier enabled group `h` also contains `x` as a
member. -/
def svcCfgDup2 : ServiceConfig :=
  ⟨[("x", ⟨true, "sv"⟩)], [("h", ⟨true, "hv", ["x"]⟩), ("x", ⟨true, "gv", ["m"]⟩)]⟩

/-- A config.json with one environment. -/
def cfgEnv1 : Config := ⟨[("pre", ⟨"ctx-pre", "reg", "ns"⟩)]⟩

/-- A world in which every kubectl call succeeds, the active context is
already `ctx-pre`, the cluster has no deployments, and the user confirms. -/
def worldOK : World where
  currentContextResult := .ok "ctx-pre"
  useContextResult := fun _ => .ok ""
  getNodesResult := .ok ""
  getDeploymentsResult := fun _ => .ok ""
  setImageResult := fun _ => .ok ""
  userInput := "y"

/-- `worldOK` with every image update failing with output `boom`. -/
def worldSetImageFails : World :=
  { worldOK with setImageResult := fun _ => .error "boom" }

/-- `worldOK` with the deployment state query failing with output `down`. -/
def worldQueryFails : World :=
  { worldOK with getDeploymentsResult := fun _ => .error "down" }

/-- `worldOK` with a different context active and the node probe failing. -/
def worldProbeFails : World :=
  { worldOK with currentContextResult := .ok "ctx-other", getNodesResult := .error "noreach" }

/-- `worldOK` with the user answering `n` at the confirm prompt. -/
def worldSaysNo : World := { worldOK with userInput := "n" }

/-- `worldOK` with a two-row deployment snapshot. -/
def worldSnap : World :=
  { worldOK with getDeploymentsResult := fun _ => .ok "docs-fe\timg:v7\nzzz\tother:v9" }

/-- `worldOK` with a snapshot whose image reference has two colons. -/
def worldTwoColons : World :=
  { worldOK with getDeploymentsResult := fun _ => .ok "docs-fe\treg:5000/img:v7" }

/-! ### Helper lemmas about the map model -/

theorem mapFind_upsert (m : SvcMap) (k v x : String) :
    mapFind (upsert m k v) x = if x = k then some v else mapFind m x := by
  induction m with
  | nil =>
    by_cases h : x = k
    · subst h; simp [upsert, mapFind, lookupA]
    · have h' : ¬ k = x := fun he => h he.symm
      simp [upsert, mapFind, lookupA, h, h']
  | cons p rest ih =>
    by_cases hp : p.1 = k
    · have h1 : upsert (p :: rest) k v = (k, v) :: rest := by simp [upsert, hp]
      by_cases hx : x = k
      · subst hx; simp [h1, mapFind, lookupA]
      · have hkx : ¬ k = x := fun he => hx he.symm
        have hpx : ¬ p.1 = x := by rw [hp]; exact hkx
        simp only [h1, mapFind, lookupA]
        rw [List.find?_cons_of_neg _ (by simpa using hkx),
          List.find?_cons_of_neg _ (by simpa using hpx), if_neg hx]
    · have h1 : upsert (p :: rest) k v = p :: upsert rest k v := by simp [upsert, hp]
      by_cases hpx : p.1 = x
      · have hx : ¬ x = k := by intro he; exact hp (by rw [hpx, he])
        simp only [h1, mapFind, lookupA]
        rw [List.find?_cons_of_pos _ (by simpa using hpx),
          List.find?_cons_of_pos _ (by simpa using hpx), if_neg hx]
      · simp only [h1, mapFind, lookupA] at ih ⊢
        rw [List.find?_cons_of_neg _ (by simpa using hpx),
          List.find?_cons_of_neg _ (by simpa using hpx)] at *
        exact ih

theorem mapFind_upsert_self (m : SvcMap) (k v : String) :
    mapFind (upsert m k v) k = some v := by
  simp [mapFind_upsert]

theorem mapFind_upsert_ne (m : SvcMap) (k v x : String) (h : x ≠ k) :
    mapFind (upsert m k v) x = mapFind m x := by
  simp [mapFind_upsert, h]

theorem upsert_ne_nil (m : SvcMap) (k v : String) : upsert m k v ≠ [] := by
  cases m with
  | nil => simp [upsert]
  | cons p rest =>
    by_cases hp : p.1 = k <;> simp [upsert, hp]

theorem lookupA_mem {α : Type} {l : List (String × α)} {k : String} {v : α}
    (h : lookupA l k = some v) : (k, v) ∈ l := by
  unfold lookupA at h
  cases hf : l.find? (fun p => p.1 = k) with
  | none => rw [hf] at h; simp at h
  | some p =>
    rw [hf] at h
    simp at h
    have hmem := List.mem_of_find?_eq_some hf
    have hkey := List.find?_some hf
    simp at hkey
    have : p = (k, v) := by
      cases p with
      | mk a b => simp_all
    rw [this] at hmem
    exact hmem

theorem mapFind_mem {m : SvcMap} {k v : String} (h : mapFind m k = some v) :
    (k, v) ∈ m := lookupA_mem h

theorem lookupA_eq_of_nodup {α : Type} {l : List (String × α)} {k : String} {v : α}
    (hnd : (l.map Prod.fst).Nodup) (hm : (k, v) ∈ l) : lookupA l k = some v := by
  induction l with
  | nil => cases hm
  | cons p rest ih =>
    rcases List.mem_cons.mp hm with h | h
    · subst h; simp [lookupA, List.find?_cons]
    · have hk : p.1 ≠ k := by
        intro he
        have : k ∈ rest.map Prod.fst := List.mem_map.mpr ⟨(k, v), h, rfl⟩
        rw [List.map_cons, List.nodup_cons] at hnd
        exact hnd.1 (he ▸ this)
      have := ih (by rw [List.map_cons, List.nodup_cons] at hnd; exact hnd.2) h
      simp [lookupA, List.find?_cons, hk] at this ⊢
      exact this

theorem foldl_invariant {α : Type} (Inv : SvcMap → Prop) (f : SvcMap → α → SvcMap)
    (l : List α) (m : SvcMap)
    (step : ∀ m a, a ∈ l → Inv m → Inv (f m a)) (h : Inv m) :
    Inv (l.foldl f m) := by
  induction l generalizing m with
  | nil => exact h
  | cons a t ih =>
    exact ih (f m a)
      (fun m b hb => step m b (List.mem_cons_of_mem _ hb))
      (step m a (List.mem_cons_self _ _) h)

theorem foldl_congr_mem {α β : Type} (f g : β → α → β) (l : List α) (m : β)
    (h : ∀ m a, a ∈ l → f m a = g m a) : l.foldl f m = l.foldl g m := by
  induction l generalizing m with
  | nil => rfl
  | cons a t ih =>
    rw [List.foldl_cons, List.foldl_cons, h m a (List.mem_cons_self _ _)]
    exact ih _ (fun m b hb => h m b (List.mem_cons_of_mem _ hb))

theorem foldl_filter_eq {α β : Type} (p : α → Bool) (f : β → α → β) (l : List α) (m : β) :
    (l.filter p).foldl f m = l.foldl (fun m a => if p a then f m a else m) m := by
  induction l generalizing m with
  | nil => rfl
  | cons a t ih =>
    by_cases hp : p a <;> simp [List.filter_cons, hp, ih]

theorem upsert_forall (P : String × String → Prop) (m : SvcMap) (k v : String)
    (hm : ∀ p ∈ m, P p) (hv : P (k, v)) : ∀ p ∈ upsert m k v, P p := by
  induction m with
  | nil => simpa [upsert] using hv
  | cons q rest ih =>
    by_cases hq : q.1 = k
    · simp only [upsert, hq, if_pos]
      intro p hp
      rcases List.mem_cons.mp hp with h | h
      · exact h ▸ hv
      · exact hm p (List.mem_cons_of_mem _ h)
    · simp only [upsert, hq, if_neg, not_false_iff]
      intro p hp
      rcases List.mem_cons.mp hp with h | h
      · exact h ▸ hm q (List.mem_cons_self _ _)
      · exact ih (fun r hr => hm r (List.mem_cons_of_mem _ hr)) p h

theorem selectVersion_of_ne (vi d : String) (h : vi ≠ "") : selectVersion vi d = vi := by
  simp [selectVersion, h]

theorem selectVersion_empty (d : String) : selectVersion "" d = d := by
  simp [selectVersion]

theorem mem_foldl_append {α β : Type} (f : β → List α) (l : List β) (acc : List α) (x : α) :
    x ∈ l.foldl (fun acc b => acc ++ f b) acc ↔ x ∈ acc ∨ ∃ b ∈ l, x ∈ f b := by
  induction l generalizing acc with
  | nil => simp
  | cons b t ih =>
    rw [List.foldl_cons, ih, List.mem_append]
    constructor
    · rintro (⟨h | h⟩ | ⟨c, hc, hx⟩)
      · exact Or.inl h
      · exact Or.inr ⟨b, List.mem_cons_self _ _, h⟩
      · exact Or.inr ⟨c, List.mem_cons_of_mem _ hc, hx⟩
    · rintro (h | ⟨c, hc, hx⟩)
      · exact Or.inl (Or.inl h)
      · rcases List.mem_cons.mp hc with h | h
        · exact Or.inl (Or.inr (h ▸ hx))
        · exact Or.inr ⟨c, h, hx⟩

/-- Membership in `getEnabledServices`, unfolded to the configuration. -/
theorem mem_getEnabledServices (s : ServiceConfig) (name : String) :
    name ∈ getEnabledServices s ↔
      (∃ info, (name, info) ∈ s.singleServices ∧ info.enabled = true) ∨
        (∃ p ∈ s.serviceGroups, p.2.enabled = true ∧ name ∈ p.2.services) := by
  unfold getEnabledServices
  rw [List.mem_append, mem_foldl_append]
  simp only [List.mem_map, List.mem_filter, List.not_mem_nil, false_or]
  constructor
  · rintro (⟨p, ⟨hp, he⟩, hn⟩ | ⟨p, ⟨hp, he⟩, hx⟩)
    · refine Or.inl ⟨p.2, ?_, he⟩
      have hpe : (name, p.2) = p := by rw [← hn]
      rw [hpe]; exact hp
    · exact Or.inr ⟨p, hp, he, hx⟩
  · rintro (⟨info, hmem, he⟩ | ⟨p, hp, he, hx⟩)
    · exact Or.inl ⟨(name, info), ⟨hmem, he⟩, rfl⟩
    · exact Or.inr ⟨p, ⟨hp, he⟩, hx⟩

/-! ### Helper lemmas about the snapshot parser -/

theorem parseLines_not_enabled (enabled : List String) (lines : List String) (m : SvcMap)
    (name : String) (hne : name ∉ enabled) (hm : mapFind m name = none) :
    mapFind (parseLines enabled lines m) name = none := by
  induction lines generalizing m with
  | nil => exact hm
  | cons line rest ih =>
    by_cases h0 : line = ""
    · simpa [parseLines, h0] using ih m hm
    · rcases hsp : splitChar '\t' line with _ | ⟨a, _ | ⟨b, _ | _⟩⟩ <;>
        simp only [parseLines, h0, if_neg, not_false_iff, hsp]
      · exact ih m hm
      · exact ih m hm
      · by_cases hen : enabled.contains a
        · have hna : name ≠ a := by
            intro he; exact hne (List.elem_iff.mp (he ▸ hen))
          rcases hti : splitChar ':' b with _ | ⟨t1, _ | ⟨t2, _ | _⟩⟩ <;>
            simp only [hen, if_pos, hti]
          · exact ih m hm
          · exact ih m hm
          · exact ih _ (by rw [mapFind_upsert_ne _ _ _ _ hna]; exact hm)
          · exact ih m hm
        · simp only [hen, Bool.false_eq_true, if_neg, not_false_iff]
          exact ih m hm
      · exact ih m hm

theorem parseLines_no_row (enabled : List String) (lines : List String) (m : SvcMap)
    (name : String)
    (hrow : ∀ line ∈ lines, (splitChar '\t' line).head? ≠ some name)
    (hm : mapFind m name = none) :
    mapFind (parseLines enabled lines m) name = none := by
  induction lines generalizing m with
  | nil => exact hm
  | cons line rest ih =>
    have hrest : ∀ l ∈ rest, (splitChar '\t' l).head? ≠ some name :=
      fun l hl => hrow l (List.mem_cons_of_mem _ hl)
    by_cases h0 : line = ""
    · simpa [parseLines, h0] using ih m hrest hm
    · rcases hsp : splitChar '\t' line with _ | ⟨a, _ | ⟨b, _ | _⟩⟩ <;>
        simp only [parseLines, h0, if_neg, not_false_iff, hsp]
      · exact ih m hrest hm
      · exact ih m hrest hm
      · have hna : name ≠ a := by
          intro he
          exact hrow line (List.mem_cons_self _ _) (by rw [hsp, he]; rfl)
        by_cases hen : enabled.contains a
        · rcases hti : splitChar ':' b with _ | ⟨t1, _ | ⟨t2, _ | _⟩⟩ <;>
            simp only [hen, if_pos, hti]
          · exact ih m hrest hm
          · exact ih m hrest hm
          · exact ih _ hrest (by rw [mapFind_upsert_ne _ _ _ _ hna]; exact hm)
          · exact ih m hrest hm
        · simp only [hen, Bool.false_eq_true, if_neg, not_false_iff]
          exact ih m hrest hm
      · exact ih m hrest hm

theorem parseLines_some (enabled : List String) (lines : List String) (m : SvcMap)
    (name v : String)
    (h : mapFind (parseLines enabled lines m) name = some v) :
    mapFind m name = some v ∨
      (name ∈ enabled ∧ ∃ line ∈ lines, ∃ img pre,
        splitChar '\t' line = [name, img] ∧ splitChar ':' img = [pre, v]) := by
  induction lines generalizing m with
  | nil => exact Or.inl h
  | cons line rest ih =>
    have push : ∀ m', mapFind (parseLines enabled rest m') name = some v →
        mapFind m' name = some v ∨
          (name ∈ enabled ∧ ∃ l ∈ line :: rest, ∃ img pre,
            splitChar '\t' l = [name, img] ∧ splitChar ':' img = [pre, v]) := by
      intro m' h'
      rcases ih m' h' with h2 | ⟨he, l, hl, img, pre, h3, h4⟩
      · exact Or.inl h2
      · exact Or.inr ⟨he, l, List.mem_cons_of_mem _ hl, img, pre, h3, h4⟩
    by_cases h0 : line = ""
    · rw [parseLines, if_pos h0] at h
      exact push m h
    · rw [parseLines, if_neg h0] at h
      split at h
      next a b hsp =>
        by_cases hen : enabled.contains a
        · rw [if_pos hen] at h
          split at h
          next t1 t2 hti =>
            rcases push _ h with h2 | h2
            · by_cases hna : name = a
              · subst hna
                rw [mapFind_upsert_self] at h2
                refine Or.inr ⟨List.elem_iff.mp hen, line, List.mem_cons_self _ _,
                  b, t1, hsp, ?_⟩
                rw [hti]; injection h2 with h3; rw [h3]
              · rw [mapFind_upsert_ne _ _ _ _ hna] at h2
                exact Or.inl h2
            · exact Or.inr h2
          next => exact push m h
        · rw [if_neg hen] at h
          exact push m h
      next => exact push m h

theorem parseLines_append (enabled : List String) (l1 l2 : List String) (m : SvcMap) :
    parseLines enabled (l1 ++ l2) m = parseLines enabled l2 (parseLines enabled l1 m) := by
  induction l1 generalizing m with
  | nil => rfl
  | cons line rest ih =>
    rw [List.cons_append]
    by_cases h0 : line = ""
    · simp only [parseLines, h0, if_pos]
      exact ih m
    · rcases hsp : splitChar '\t' line with _ | ⟨a, _ | ⟨b, _ | _⟩⟩ <;>
        simp only [parseLines, h0, if_neg, not_false_iff, hsp]
      · exact ih m
      · exact ih m
      · by_cases hen : enabled.contains a
        · rcases hti : splitChar ':' b with _ | ⟨t1, _ | ⟨t2, _ | _⟩⟩ <;>
            simp only [hen, if_pos, hti]
          · exact ih m
          · exact ih m
          · exact ih (upsert m a t2)
          · exact ih m
        · simp only [hen, Bool.false_eq_true, if_neg, not_false_iff]
          exact ih m
      · exact ih m

theorem parseLines_preserve (enabled : List String) (lines : List String) (m : SvcMap)
    (name : String)
    (hrow : ∀ line ∈ lines, (splitChar '\t' line).head? ≠ some name) :
    mapFind (parseLines enabled lines m) name = mapFind m name := by
  induction lines generalizing m with
  | nil => rfl
  | cons line rest ih =>
    have hrest : ∀ l ∈ rest, (splitChar '\t' l).head? ≠ some name :=
      fun l hl => hrow l (List.mem_cons_of_mem _ hl)
    by_cases h0 : line = ""
    · simpa [parseLines, h0] using ih m hrest
    · rcases hsp : splitChar '\t' line with _ | ⟨a, _ | ⟨b, _ | _⟩⟩ <;>
        simp only [parseLines, h0, if_neg, not_false_iff, hsp]
      · exact ih m hrest
      · exact ih m hrest
      · have hna : name ≠ a := by
          intro he
          exact hrow line (List.mem_cons_self _ _) (by rw [hsp, he]; rfl)
        by_cases hen : enabled.contains a
        · rcases hti : splitChar ':' b with _ | ⟨t1, _ | ⟨t2, _ | _⟩⟩ <;>
            simp only [hen, if_pos, hti]
          · exact ih m hrest
          · exact ih m hrest
          · rw [ih (upsert m a t2) hrest]
            exact mapFind_upsert_ne _ _ _ _ hna
          · exact ih m hrest
        · simp only [hen, Bool.false_eq_true, if_neg, not_false_iff]
          exact ih m hrest
      · exact ih m hrest

theorem parseLines_pos (enabled : List String) (l1 l2 : List String) (m : SvcMap)
    (line0 name img pre v : String)
    (hen : enabled.contains name = true)
    (hline : splitChar '\t' line0 = [name, img])
    (himg : splitChar ':' img = [pre, v])
    (hl2 : ∀ line ∈ l2, (splitChar '\t' line).head? ≠ some name) :
    mapFind (parseLines enabled (l1 ++ line0 :: l2) m) name = some v := by
  rw [parseLines_append]
  have h0 : line0 ≠ "" := by
    intro he
    rw [he] at hline
    have h1 : splitChar '\t' "" = [""] := rfl
    rw [h1] at hline
    simp at hline
  rw [parseLines, if_neg h0, hline]
  simp only [hen, if_pos, himg]
  rw [parseLines_preserve enabled l2 _ name hl2]
  exact mapFind_upsert_self _ _ _

/-! ### Value invariants of the resolvers -/

theorem getSelectedServicesP1_values (s : ServiceConfig) (servicesInput versionInput : String)
    (hvi : versionInput ≠ "") :
    ∀ p ∈ getSelectedServicesP1 s servicesInput versionInput, p.2 = versionInput := by
  have hup : ∀ (m : SvcMap) (k d : String), (∀ p ∈ m, p.2 = versionInput) →
      ∀ p ∈ upsert m k (selectVersion versionInput d), p.2 = versionInput := by
    intro m k d hm
    exact upsert_forall (fun p => p.2 = versionInput) m k (selectVersion versionInput d)
      hm (selectVersion_of_ne versionInput d hvi)
  have hgrp : ∀ (ver : String) (l : List String) (m : SvcMap),
      (∀ p ∈ m, p.2 = versionInput) →
      ∀ p ∈ l.foldl (fun m sub => upsert m sub (selectVersion versionInput ver)) m,
        p.2 = versionInput := by
    intro ver l m hm
    exact foldl_invariant (fun m => ∀ p ∈ m, p.2 = versionInput) _ l m
      (fun m a _ hm => hup m a ver hm) hm
  unfold getSelectedServicesP1
  by_cases h : servicesInput = ""
  · rw [if_pos h]
    refine foldl_invariant (fun m => ∀ p ∈ m, p.2 = versionInput) _ s.serviceGroups _
      ?_ ?_
    · intro m a _ hm
      dsimp only
      split
      · exact hgrp a.2.version a.2.services m hm
      · exact hm
    · refine foldl_invariant (fun m => ∀ p ∈ m, p.2 = versionInput) _ s.singleServices []
        ?_ (by simp)
      intro m a _ hm
      dsimp only
      split
      · exact hup m a.1 a.2.version hm
      · exact hm
  · rw [if_neg h]
    refine foldl_invariant (fun m => ∀ p ∈ m, p.2 = versionInput) _ _ [] ?_ (by simp)
    intro m a _ hm
    unfold selectServiceTokenP1
    cases hs : lookupA s.singleServices (trimS a) with
    | some info =>
      simp only [hs]
      split
      · exact hup m (trimS a) info.version hm
      · cases hg : lookupA s.serviceGroups (trimS a) with
        | some g =>
          simp only [hg]
          split
          · exact hgrp g.version g.services m hm
          · exact hm
        | none => simp only [hg]; exact hm
    | none =>
      simp only [hs]
      cases hg : lookupA s.serviceGroups (trimS a) with
      | some g =>
        simp only [hg]
        split
        · exact hgrp g.version g.services m hm
        · exact hm
      | none => simp only [hg]; exact hm

/-! ### Claim theorems -/

/-- C1: the spec says a non-empty `versionOverride` makes every value of the
resolved target equal the override for every scope filter.  The `part_001`
resolver satisfies this (second conjunct), but `src/main.go`'s resolver
ignores the override in its empty-scope branch: with a single enabled
service whose default is `v3.48.2` and override `v9.9.9`, the resolved
value stays `v3.48.2` (first conjunct), contradicting the claim, the
flag's own help text and the sibling implementation — a code bug. -/
theorem c1_version_override :
    (mapFind (getSelectedServicesMain svcCfg1 "" "v9.9.9") "docs-fe" = some "v3.48.2"
      ∧ ("v3.48.2" : String) ≠ "v9.9.9")
    ∧ (∀ (s : ServiceConfig) (servicesInput versionInput k v : String),
        versionInput ≠ "" →
        mapFind (getSelectedServicesP1 s servicesInput versionInput) k = some v →
        v = versionInput) := by
  refine ⟨⟨by decide, by decide⟩, ?_⟩
  intro s servicesInput versionInput k v hvi h
  exact getSelectedServicesP1_values s servicesInput versionInput hvi (k, v) (mapFind_mem h)

/-- Witness for C1: a concrete run of the `part_001` resolver where the
override hypothesis holds, alongside the main.go evaluation. -/
theorem c1_version_override_witness :
    ("v9.9.9" : String) ≠ ""
    ∧ mapFind (getSelectedServicesP1 svcCfg1 "" "v9.9.9") "docs-fe" = some "v9.9.9"
    ∧ ("v9.9.9" : String) = "v9.9.9" :=
  ⟨by decide, by decide,
    c1_version_override.2 svcCfg1 "" "v9.9.9" "docs-fe" "v9.9.9" (by decide) (by decide)⟩

/-- C10: in the `part_001` resolver, a scope token that names both an
enabled single service and an enabled group adds only the single-service
entry (the `continue` skips the group block), leaving every other key —
in particular the group's members — untouched by that token. -/
theorem c10_single_beats_group (s : ServiceConfig) (versionInput : String) (m : SvcMap)
    (rawToken : String) (info : ServiceInfo) (g : ServiceGroup)
    (hs : lookupA s.singleServices (trimS rawToken) = some info)
    (he : info.enabled = true)
    (hg : lookupA s.serviceGroups (trimS rawToken) = some g)
    (hge : g.enabled = true) :
    selectServiceTokenP1 s versionInput m rawToken
      = upsert m (trimS rawToken) (selectVersion versionInput info.version)
    ∧ ∀ x, x ≠ trimS rawToken →
        mapFind (selectServiceTokenP1 s versionInput m rawToken) x = mapFind m x := by
  have h1 : selectServiceTokenP1 s versionInput m rawToken
      = upsert m (trimS rawToken) (selectVersion versionInput info.version) := by
    simp [selectServiceTokenP1, hs, he]
  exact ⟨h1, fun x hx => by rw [h1, mapFind_upsert_ne _ _ _ _ hx]⟩

/-- Witness for C10: the name `x` is both an enabled single service
(version v1) and an enabled group (members m1, m2); the token adds only
the single entry and does not touch the member key m1. -/
theorem c10_single_beats_group_witness :
    lookupA svcCfgDup.singleServices (trimS "x") = some ⟨true, "v1"⟩
    ∧ lookupA svcCfgDup.serviceGroups (trimS "x") = some ⟨true, "v2", ["m1", "m2"]⟩
    ∧ selectServiceTokenP1 svcCfgDup "" [] "x"
        = upsert [] (trimS "x") (selectVersion "" "v1")
    ∧ mapFind (selectServiceTokenP1 svcCfgDup "" [] "x") "m1" = mapFind [] "m1" :=
  ⟨by decide, by decide,
    (c10_single_beats_group svcCfgDup "" [] "x" ⟨true, "v1"⟩ ⟨true, "v2", ["m1", "m2"]⟩
      (by decide) rfl (by decide) rfl).1,
    (c10_single_beats_group svcCfgDup "" [] "x" ⟨true, "v1"⟩ ⟨true, "v2", ["m1", "m2"]⟩
      (by decide) rfl (by decide) rfl).2 "m1" (by decide)⟩

/-- C3: a single service whose enabled flag is false and that is not a
member of any enabled group never appears in the resolver's output (for
any scope filter and override) nor in the observed-state map, and members
of disabled groups contribute nothing through those groups. -/
theorem c3_disabled_excluded (s : ServiceConfig) (name : String)
    (hsingle : ∀ p ∈ s.singleServices, p.1 = name → p.2.enabled = false)
    (hgroups : ∀ p ∈ s.serviceGroups, p.2.enabled = true → name ∉ p.2.services) :
    (∀ servicesInput versionInput,
        mapFind (getSelectedServicesMain s servicesInput versionInput) name = none)
    ∧ (∀ (w : World) (namespaceName : String),
        mapFind (getCurrentVersionsMain w s namespaceName).2.1 name = none) := by
  have hginner : ∀ (ver : String) (l : List String), name ∉ l → ∀ m,
      mapFind m name = none →
      mapFind (l.foldl (fun m sub => upsert m sub ver) m) name = none := by
    intro ver l hnl m hm
    refine foldl_invariant (fun m => mapFind m name = none) _ l m ?_ hm
    intro m a ha hm2
    have hne : name ≠ a := fun he => hnl (he ▸ ha)
    rw [mapFind_upsert_ne _ _ _ _ hne]; exact hm2
  constructor
  · intro servicesInput versionInput
    unfold getSelectedServicesMain
    by_cases h : servicesInput = ""
    · rw [if_pos h]
      refine foldl_invariant (fun m => mapFind m name = none) _ s.serviceGroups _ ?_ ?_
      · intro m a ha hm
        dsimp only
        split
        next hen => exact hginner a.2.version a.2.services (hgroups a ha hen) m hm
        next => exact hm
      · refine foldl_invariant (fun m => mapFind m name = none) _ s.singleServices []
          ?_ rfl
        intro m a ha hm
        dsimp only
        split
        next hen =>
          have hne : name ≠ a.1 := by
            intro he
            rw [hsingle a ha he.symm] at hen
            cases hen
          rw [mapFind_upsert_ne _ _ _ _ hne]; exact hm
        next => exact hm
    · rw [if_neg h]
      refine foldl_invariant (fun m => mapFind m name = none) _ _ [] ?_ rfl
      intro m a _ hm
      unfold selectServiceTokenMain
      have hm1 : mapFind
          (match lookupA s.singleServices a with
            | some info =>
                if info.enabled then upsert m a (selectVersion versionInput info.version)
                else m
            | none => m) name = none := by
        cases hs : lookupA s.singleServices a with
        | some info =>
          dsimp only
          split
          next hen =>
            have hne : name ≠ a := by
              intro he
              subst he
              rw [hsingle (name, info) (lookupA_mem hs) rfl] at hen
              cases hen
            rw [mapFind_upsert_ne _ _ _ _ hne]; exact hm
          next => exact hm
        | none => exact hm
      cases hg : lookupA s.serviceGroups a with
      | some g =>
        simp only [hg]
        split
        next hen =>
          exact hginner _ _ (hgroups (a, g) (lookupA_mem hg) hen) _ hm1
        next => exact hm1
      | none => simp only [hg]; exact hm1
  · intro w namespaceName
    have hne : name ∉ getEnabledServices s := by
      rw [mem_getEnabledServices]
      rintro (⟨info, hmem, hen⟩ | ⟨p, hp, hen, hx⟩)
      · rw [hsingle (name, info) hmem rfl] at hen
        cases hen
      · exact hgroups p hp hen hx
    unfold getCurrentVersionsMain
    cases hq : w.getDeploymentsResult namespaceName with
    | error e => rfl
    | ok out => exact parseLines_not_enabled _ _ _ _ hne rfl

/-- Witness for C3: in `svcCfg3` the service `off-svc` is disabled and a
member only of the disabled group `gdis`; it is absent from the resolved
target and from the observed state. -/
theorem c3_disabled_excluded_witness :
    (∀ p ∈ svcCfg3.singleServices, p.1 = "off-svc" → p.2.enabled = false)
    ∧ (∀ p ∈ svcCfg3.serviceGroups, p.2.enabled = true → "off-svc" ∉ p.2.services)
    ∧ mapFind (getSelectedServicesMain svcCfg3 "" "") "off-svc" = none
    ∧ mapFind (getSelectedServicesMain svcCfg3 "off-svc,gdis" "v2") "off-svc" = none
    ∧ mapFind (getCurrentVersionsMain worldOK svcCfg3 "ns").2.1 "off-svc" = none :=
  ⟨by decide, by decide,
    (c3_disabled_excluded svcCfg3 "off-svc" (by decide) (by decide)).1 "" "",
    (c3_disabled_excluded svcCfg3 "off-svc" (by decide) (by decide)).1 "off-svc,gdis" "v2",
    (c3_disabled_excluded svcCfg3 "off-svc" (by decide) (by decide)).2 worldOK "ns"⟩

/-- C9 (amended): the snapshot records a version for a service only from a
two-field row whose image reference contains exactly one `:` (recording
the part after it — the fourth conjunct exhibits the recorded entry for
such a row); only enabled services are recorded, and a service with no row
is silently omitted. -/
theorem c9_snapshot_parsing (w : World) (s : ServiceConfig) (namespaceName output : String)
    (hok : w.getDeploymentsResult namespaceName = Except.ok output) :
    (∀ name v, mapFind (getCurrentVersionsMain w s namespaceName).2.1 name = some v →
        name ∈ getEnabledServices s
        ∧ ∃ line ∈ splitChar '\n' (trimS output), ∃ img pre,
            splitChar '\t' line = [name, img] ∧ splitChar ':' img = [pre, v])
    ∧ (∀ name, name ∉ getEnabledServices s →
        mapFind (getCurrentVersionsMain w s namespaceName).2.1 name = none)
    ∧ (∀ name,
        (∀ line ∈ splitChar '\n' (trimS output), (splitChar '\t' line).head? ≠ some name) →
        mapFind (getCurrentVersionsMain w s namespaceName).2.1 name = none)
    ∧ (∀ (l1 l2 : List String) (line0 name img pre v : String),
        splitChar '\n' (trimS output) = l1 ++ line0 :: l2 →
        name ∈ getEnabledServices s →
        splitChar '\t' line0 = [name, img] →
        splitChar ':' img = [pre, v] →
        (∀ line ∈ l2, (splitChar '\t' line).head? ≠ some name) →
        mapFind (getCurrentVersionsMain w s namespaceName).2.1 name = some v) := by
  have hmap : (getCurrentVersionsMain w s namespaceName).2.1
      = parseLines (getEnabledServices s) (splitChar '\n' (trimS output)) [] := by
    simp [getCurrentVersionsMain, hok, parseVersions]
  refine ⟨?_, ?_, ?_, ?_⟩
  · intro name v h
    rw [hmap] at h
    rcases parseLines_some _ _ _ _ _ h with h2 | ⟨hen, hrest⟩
    · cases h2
    · exact ⟨hen, hrest⟩
  · intro name hne
    rw [hmap]
    exact parseLines_not_enabled _ _ _ _ hne rfl
  · intro name hrow
    rw [hmap]
    exact parseLines_no_row _ _ _ _ hrow rfl
  · intro l1 l2 line0 name img pre v hlines hen hline himg hl2
    rw [hmap, hlines]
    exact parseLines_pos (getEnabledServices s) l1 l2 [] line0 name img pre v
      (List.elem_iff.mpr hen) hline himg hl2

/-- Witness for C9: on a concrete snapshot, the single-colon row for the
enabled `docs-fe` is recorded (`docs-fe ↦ v7`), the row for the
non-enabled `zzz` is not, and a missing row yields no entry. -/
theorem c9_snapshot_parsing_witness :
    worldSnap.getDeploymentsResult "ns" = Except.ok "docs-fe\timg:v7\nzzz\tother:v9"
    ∧ mapFind (getCurrentVersionsMain worldSnap svcCfg1 "ns").2.1 "docs-fe" = some "v7"
    ∧ mapFind (getCurrentVersionsMain worldSnap svcCfg1 "ns").2.1 "zzz" = none
    ∧ mapFind (getCurrentVersionsMain worldSnap svcCfg1 "ns").2.1 "absent" = none :=
  ⟨rfl,
    (c9_snapshot_parsing worldSnap svcCfg1 "ns" "docs-fe\timg:v7\nzzz\tother:v9" rfl).2.2.2
      [] ["zzz\tother:v9"] "docs-fe\timg:v7" "docs-fe" "img:v7" "img" "v7"
      (by decide) (by decide) (by decide) (by decide) (by decide),
    (c9_snapshot_parsing worldSnap svcCfg1 "ns" "docs-fe\timg:v7\nzzz\tother:v9" rfl).2.1
      "zzz" (by decide),
    (c9_snapshot_parsing worldSnap svcCfg1 "ns" "docs-fe\timg:v7\nzzz\tother:v9" rfl).2.2.1
      "absent" (by decide)⟩

/-- Counterexample for C9: the claim says the version is the substring
after the last `:`; on an image reference with two colons
(`reg:5000/img:v7`, whose after-last-colon substring is `v7`) the code
records no entry at all for the enabled service. -/
theorem c9_counterexample :
    "docs-fe" ∈ getEnabledServices svcCfg1
    ∧ mapFind (getCurrentVersionsMain worldTwoColons svcCfg1 "ns").2.1 "docs-fe" = none
    ∧ (splitChar ':' "reg:5000/img:v7").getLast? = some "v7" := by
  exact ⟨by decide, by decide, by decide⟩

/-! ### Trace lemmas for the pipelines -/

theorem switchProbeMain_trace (w : World) (ctx : String) :
    ∀ c ∈ (switchProbeMain w ctx).1, c = Cmd.useContext ctx ∨ c = Cmd.getNodes := by
  intro c hc
  unfold switchProbeMain at hc
  rcases hu : w.useContextResult ctx with e | o <;> rw [hu] at hc
  · simp at hc; exact Or.inl hc
  · rcases hn : w.getNodesResult with e2 | o2 <;> rw [hn] at hc <;>
      (simp at hc; rcases hc with h | h)
    · exact Or.inl h
    · exact Or.inr h
    · exact Or.inl h
    · exact Or.inr h

theorem switchContextMain_trace (w : World) (ctx : String) :
    ∀ c ∈ (switchContextMain w ctx).1,
      c = Cmd.currentContext ∨ c = Cmd.useContext ctx ∨ c = Cmd.getNodes := by
  intro c hc
  unfold switchContextMain at hc
  rcases hcur : w.currentContextResult with e | o <;> rw [hcur] at hc <;> dsimp only at hc
  · rcases List.mem_cons.mp hc with h | h
    · exact Or.inl h
    · exact Or.inr (switchProbeMain_trace w ctx c h)
  · by_cases ht : trimS o = ctx
    · rw [if_pos ht] at hc
      simp at hc; exact Or.inl hc
    · rw [if_neg ht] at hc
      rcases List.mem_cons.mp hc with h | h
      · exact Or.inl h
      · exact Or.inr (switchProbeMain_trace w ctx c h)

theorem switchContextMain_no_touch (w : World) (ctx : String) :
    ∀ c ∈ (switchContextMain w ctx).1, isSetImage c = false ∧ isDeployRead c = false := by
  intro c hc
  rcases switchContextMain_trace w ctx c hc with h | h | h <;> subst h <;> exact ⟨rfl, rfl⟩

theorem switchContextP1_trace (w : World) (ctx : String) :
    (switchContextP1 w ctx).1 = [Cmd.useContext ctx] := by
  unfold switchContextP1
  rcases hu : w.useContextResult ctx with e | o <;> rfl

theorem getCurrentVersionsMain_trace (w : World) (s : ServiceConfig) (ns : String) :
    (getCurrentVersionsMain w s ns).1 = [Cmd.getDeployments ns] := by
  unfold getCurrentVersionsMain
  rcases hq : w.getDeploymentsResult ns with e | o <;> rfl

/-! ### Branch characterizations of the pipelines -/

theorem DeployMain_invalid_env (w : World) (cfg : Config) (s : ServiceConfig)
    (env si vi : String) (henv : lookupA cfg.environments env = none) :
    DeployMain w cfg s env si vi
      = ⟨[], [LogEvent.deployStart env si vi, LogEvent.invalidEnv env],
          some ("无效的环境: " ++ env)⟩ := by
  unfold DeployMain
  rw [henv]
  rfl

theorem DeployMain_switch_fail (w : World) (cfg : Config) (s : ServiceConfig)
    (env si vi : String) (envC : Environment) (swT : List Cmd) (e : String)
    (henv : lookupA cfg.environments env = some envC)
    (hsw : switchContextMain w envC.context = (swT, some e)) :
    DeployMain w cfg s env si vi
      = ⟨swT, [LogEvent.deployStart env si vi, LogEvent.switchFailed], some e⟩ := by
  simp only [DeployMain, henv, hsw]
  rfl

theorem DeployMain_no_services (w : World) (cfg : Config) (s : ServiceConfig)
    (env si vi : String) (envC : Environment) (swT : List Cmd)
    (henv : lookupA cfg.environments env = some envC)
    (hsw : switchContextMain w envC.context = (swT, none))
    (hsel : getSelectedServicesMain s si vi = []) :
    DeployMain w cfg s env si vi
      = ⟨swT ++ (getCurrentVersionsMain w s envC.namespaceName).1,
          [LogEvent.deployStart env si vi, LogEvent.switched envC.context]
            ++ (if (getCurrentVersionsMain w s envC.namespaceName).2.2.isSome
                then [LogEvent.snapshotWarn] else [])
            ++ [LogEvent.noServices],
          some "没有可用的服务进行发布"⟩ := by
  simp only [DeployMain, henv, hsw, hsel]
  simp

theorem DeployMain_cancelled (w : World) (cfg : Config) (s : ServiceConfig)
    (env si vi : String) (envC : Environment) (swT : List Cmd)
    (henv : lookupA cfg.environments env = some envC)
    (hsw : switchContextMain w envC.context = (swT, none))
    (hsel : getSelectedServicesMain s si vi ≠ [])
    (hin : toLowerS w.userInput ≠ "y") :
    DeployMain w cfg s env si vi
      = ⟨swT ++ (getCurrentVersionsMain w s envC.namespaceName).1,
          [LogEvent.deployStart env si vi, LogEvent.switched envC.context]
            ++ (if (getCurrentVersionsMain w s envC.namespaceName).2.2.isSome
                then [LogEvent.snapshotWarn] else [])
            ++ [LogEvent.selected, LogEvent.cancelled],
          none⟩ := by
  rcases hsel2 : getSelectedServicesMain s si vi with _ | ⟨a, t⟩
  · exact absurd hsel2 hsel
  · simp only [DeployMain, henv, hsw, hsel2]
    simp [hin]

theorem DeployMain_confirmed (w : World) (cfg : Config) (s : ServiceConfig)
    (env si vi : String) (envC : Environment) (swT : List Cmd)
    (henv : lookupA cfg.environments env = some envC)
    (hsw : switchContextMain w envC.context = (swT, none))
    (hsel : getSelectedServicesMain s si vi ≠ [])
    (hin : toLowerS w.userInput = "y") :
    (DeployMain w cfg s env si vi).result = none
    ∧ (DeployMain w cfg s env si vi).trace
        = swT ++ (getCurrentVersionsMain w s envC.namespaceName).1
            ++ ((getSelectedServicesMain s si vi).map
                (fun p => (deployServiceMain w p.1 envC.registry envC.namespaceName p.2).1))
            ++ (getCurrentVersionsMain w s envC.namespaceName).1
    ∧ ((getCurrentVersionsMain w s envC.namespaceName).2.2.isSome = true →
        LogEvent.snapshotWarn ∈ (DeployMain w cfg s env si vi).logs) := by
  rcases hsel2 : getSelectedServicesMain s si vi with _ | ⟨a, t⟩
  · exact absurd hsel2 hsel
  · refine ⟨?_, ?_, fun hwarn => ?_⟩ <;> simp only [DeployMain, henv, hsw, hsel2] <;>
      simp [hin, *]

theorem CheckMain_switch_fail (w : World) (cfg : Config) (s : ServiceConfig)
    (env si vi : String) (envC : Environment) (swT : List Cmd) (e : String)
    (henv : lookupA cfg.environments env = some envC)
    (hsw : switchContextMain w envC.context = (swT, some e)) :
    CheckMain w cfg s env si vi = ⟨swT, [], some e⟩ := by
  simp only [CheckMain, henv, hsw]

theorem CheckMain_ok (w : World) (cfg : Config) (s : ServiceConfig)
    (env si vi : String) (envC : Environment) (swT : List Cmd)
    (henv : lookupA cfg.environments env = some envC)
    (hsw : switchContextMain w envC.context = (swT, none)) :
    CheckMain w cfg s env si vi
      = ⟨swT ++ (getCurrentVersionsMain w s envC.namespaceName).1, [],
          if (getSelectedServicesMain s si vi).isEmpty
          then some "没有可用的服务进行检查" else none⟩ := by
  simp only [CheckMain, henv, hsw]
  by_cases h : (getSelectedServicesMain s si vi).isEmpty <;> simp [h]

theorem DeployP1_no_services (w : World) (cfg : Config) (s : ServiceConfig)
    (env si vi : String) (envC : Environment) (swT : List Cmd)
    (henv : lookupA cfg.environments env = some envC)
    (hsw : switchContextP1 w envC.context = (swT, none))
    (hsel : getSelectedServicesP1 s si vi = []) :
    (DeployP1 w cfg s env si vi).result = some "没有可用的服务进行发布"
    ∧ (DeployP1 w cfg s env si vi).trace
        = swT ++ (getCurrentVersionsMain w s envC.namespaceName).1 := by
  constructor <;> simp only [DeployP1, henv, hsw, hsel] <;> simp

theorem DeployP1_confirmed (w : World) (cfg : Config) (s : ServiceConfig)
    (env si vi : String) (envC : Environment) (swT : List Cmd)
    (henv : lookupA cfg.environments env = some envC)
    (hsw : switchContextP1 w envC.context = (swT, none))
    (hsel : getSelectedServicesP1 s si vi ≠ [])
    (hin : toLowerS w.userInput = "y") :
    ((deployPhaseP1 w (getSelectedServicesP1 s si vi) envC.registry envC.namespaceName).2 = []
      → (DeployP1 w cfg s env si vi).result = none)
    ∧ ((deployPhaseP1 w (getSelectedServicesP1 s si vi) envC.registry envC.namespaceName).2 ≠ []
      → (DeployP1 w cfg s env si vi).result
          = some ("部署过程中出现错误:\n" ++ String.intercalate "\n"
              (deployPhaseP1 w (getSelectedServicesP1 s si vi) envC.registry
                envC.namespaceName).2))
    ∧ (DeployP1 w cfg s env si vi).trace
        = swT ++ (getCurrentVersionsMain w s envC.namespaceName).1
            ++ (deployPhaseP1 w (getSelectedServicesP1 s si vi) envC.registry
                envC.namespaceName).1
            ++ (if (deployPhaseP1 w (getSelectedServicesP1 s si vi) envC.registry
                  envC.namespaceName).2.isEmpty
                then (getCurrentVersionsMain w s envC.namespaceName).1 else []) := by
  rcases hsel2 : getSelectedServicesP1 s si vi with _ | ⟨a, t⟩
  · exact absurd hsel2 hsel
  · by_cases herr : (deployPhaseP1 w (a :: t) envC.registry envC.namespaceName).2 = []
    · refine ⟨fun _ => ?_, fun hne => absurd herr hne, ?_⟩ <;>
        simp only [DeployP1, henv, hsw, hsel2] <;>
        simp [hin, herr]
    · have herr2 : (deployPhaseP1 w (a :: t) envC.registry envC.namespaceName).2.isEmpty
          = false := by
        rcases hd : (deployPhaseP1 w (a :: t) envC.registry envC.namespaceName).2 with
          _ | ⟨x, xs⟩
        · exact absurd hd herr
        · rfl
      refine ⟨fun he => absurd he herr, fun _ => ?_, ?_⟩ <;>
        simp only [DeployP1, henv, hsw, hsel2] <;>
        simp [hin, herr2]

theorem CheckP1_switch_fail (w : World) (cfg : Config) (s : ServiceConfig)
    (env si vi : String) (envC : Environment) (swT : List Cmd) (e : String)
    (henv : lookupA cfg.environments env = some envC)
    (hsw : switchContextP1 w envC.context = (swT, some e)) :
    CheckP1 w cfg s env si vi = ⟨swT, [], some e⟩ := by
  simp only [CheckP1, henv, hsw]

theorem CheckP1_cv_fail (w : World) (cfg : Config) (s : ServiceConfig)
    (env si vi : String) (envC : Environment) (swT cvT : List Cmd)
    (cvM : SvcMap) (e : String)
    (henv : lookupA cfg.environments env = some envC)
    (hsw : switchContextP1 w envC.context = (swT, none))
    (hcv : getCurrentVersionsMain w s envC.namespaceName = (cvT, cvM, some e)) :
    CheckP1 w cfg s env si vi = ⟨swT ++ cvT, [], some e⟩ := by
  simp only [CheckP1, henv, hsw, hcv]

theorem CheckP1_ok (w : World) (cfg : Config) (s : ServiceConfig)
    (env si vi : String) (envC : Environment) (swT cvT : List Cmd) (cvM : SvcMap)
    (henv : lookupA cfg.environments env = some envC)
    (hsw : switchContextP1 w envC.context = (swT, none))
    (hcv : getCurrentVersionsMain w s envC.namespaceName = (cvT, cvM, none)) :
    CheckP1 w cfg s env si vi
      = ⟨swT ++ cvT, [],
          if (getSelectedServicesP1 s si vi).isEmpty
          then some "没有可用的服务进行检查" else none⟩ := by
  simp only [CheckP1, henv, hsw, hcv]
  by_cases h : (getSelectedServicesP1 s si vi).isEmpty <;> simp [h]

theorem CheckP1_invalid_env (w : World) (cfg : Config) (s : ServiceConfig)
    (env si vi : String) (henv : lookupA cfg.environments env = none) :
    CheckP1 w cfg s env si vi = ⟨[], [], some ("无效的环境: " ++ env)⟩ := by
  unfold CheckP1
  rw [henv]

theorem CheckMain_invalid_env (w : World) (cfg : Config) (s : ServiceConfig)
    (env si vi : String) (henv : lookupA cfg.environments env = none) :
    CheckMain w cfg s env si vi = ⟨[], [], some ("无效的环境: " ++ env)⟩ := by
  unfold CheckMain
  rw [henv]

theorem switchProbeMain_use_mem (w : World) (ctx : String) :
    Cmd.useContext ctx ∈ (switchProbeMain w ctx).1 := by
  unfold switchProbeMain
  rcases hu : w.useContextResult ctx with e | o
  · simp
  · rcases hn : w.getNodesResult with e2 | o2 <;> simp

theorem switchProbeMain_ok_probe (w : World) (ctx : String)
    (h : (switchProbeMain w ctx).2 = none) :
    Cmd.getNodes ∈ (switchProbeMain w ctx).1 := by
  unfold switchProbeMain at h ⊢
  rcases hu : w.useContextResult ctx with e | o <;>
    rcases hn : w.getNodesResult with e2 | o2 <;>
    simp_all

theorem switchProbeMain_nodes_fail (w : World) (ctx e : String)
    (hn : w.getNodesResult = Except.error e) :
    (switchProbeMain w ctx).2.isSome = true := by
  unfold switchProbeMain
  rcases hu : w.useContextResult ctx with e2 | o <;> rw [hn] <;> rfl

theorem switchContextMain_not_active (w : World) (ctx : String)
    (h : ∀ out, w.currentContextResult = Except.ok out → trimS out ≠ ctx) :
    switchContextMain w ctx
      = (Cmd.currentContext :: (switchProbeMain w ctx).1, (switchProbeMain w ctx).2) := by
  unfold switchContextMain
  rcases hc : w.currentContextResult with e | o
  · rfl
  · simp only []
    rw [if_neg (h o hc)]

/-- C7: if the resolver yields no services, Deploy (main.go) and Check
(part_001) return an error before issuing any image update, and the
process exit code derived from that error is 1. -/
theorem c7_empty_selection (w : World) (cfg : Config) (s : ServiceConfig)
    (env servicesInput versionInput : String) :
    (getSelectedServicesMain s servicesInput versionInput = [] →
      (DeployMain w cfg s env servicesInput versionInput).result.isSome = true
      ∧ (∀ c ∈ (DeployMain w cfg s env servicesInput versionInput).trace,
          isSetImage c = false)
      ∧ exitCode (DeployMain w cfg s env servicesInput versionInput).result = 1)
    ∧ (getSelectedServicesP1 s servicesInput versionInput = [] →
      (CheckP1 w cfg s env servicesInput versionInput).result.isSome = true
      ∧ (∀ c ∈ (CheckP1 w cfg s env servicesInput versionInput).trace,
          isSetImage c = false)
      ∧ exitCode (CheckP1 w cfg s env servicesInput versionInput).result = 1) := by
  constructor
  · intro hsel
    cases henv : lookupA cfg.environments env with
    | none =>
      rw [DeployMain_invalid_env w cfg s env servicesInput versionInput henv]
      refine ⟨rfl, ?_, rfl⟩
      intro c hc
      simp at hc
    | some envC =>
      rcases hsw : switchContextMain w envC.context with ⟨swT, swE⟩
      have hswm := switchContextMain_no_touch w envC.context
      rw [hsw] at hswm
      cases swE with
      | some e =>
        rw [DeployMain_switch_fail w cfg s env servicesInput versionInput envC swT e
          henv hsw]
        exact ⟨rfl, fun c hc => (hswm c hc).1, rfl⟩
      | none =>
        rw [DeployMain_no_services w cfg s env servicesInput versionInput envC swT
          henv hsw hsel]
        refine ⟨rfl, ?_, rfl⟩
        intro c hc
        rcases List.mem_append.mp hc with h | h
        · exact (hswm c h).1
        · rw [getCurrentVersionsMain_trace] at h
          simp at h
          subst h
          rfl
  · intro hsel
    cases henv : lookupA cfg.environments env with
    | none =>
      rw [CheckP1_invalid_env w cfg s env servicesInput versionInput henv]
      refine ⟨rfl, ?_, rfl⟩
      intro c hc
      simp at hc
    | some envC =>
      rcases hsw : switchContextP1 w envC.context with ⟨swT, swE⟩
      have hswt := switchContextP1_trace w envC.context
      rw [hsw] at hswt
      dsimp only at hswt
      cases swE with
      | some e =>
        rw [CheckP1_switch_fail w cfg s env servicesInput versionInput envC swT e
          henv hsw]
        refine ⟨rfl, ?_, rfl⟩
        intro c hc
        rw [hswt] at hc
        simp at hc
        subst hc
        rfl
      | none =>
        rcases hcv : getCurrentVersionsMain w s envC.namespaceName with ⟨cvT, cvM, cvE⟩
        have hcvt := getCurrentVersionsMain_trace w s envC.namespaceName
        rw [hcv] at hcvt
        dsimp only at hcvt
        have htr : ∀ c ∈ swT ++ cvT, isSetImage c = false := by
          intro c hc
          rcases List.mem_append.mp hc with h | h
          · rw [hswt] at h; simp at h; subst h; rfl
          · rw [hcvt] at h; simp at h; subst h; rfl
        cases cvE with
        | some e =>
          rw [CheckP1_cv_fail w cfg s env servicesInput versionInput envC swT cvT cvM e
            henv hsw hcv]
          exact ⟨rfl, htr, rfl⟩
        | none =>
          rw [CheckP1_ok w cfg s env servicesInput versionInput envC swT cvT cvM
            henv hsw hcv]
          rw [hsel]
          exact ⟨rfl, htr, rfl⟩

/-- Witness for C7: with an empty services.json the resolvers select
nothing; Deploy and Check fail with exit code 1 and no update issued. -/
theorem c7_empty_selection_witness :
    getSelectedServicesMain svcCfgEmpty "" "" = []
    ∧ (DeployMain worldOK cfgEnv1 svcCfgEmpty "pre" "" "").result.isSome = true
    ∧ exitCode (DeployMain worldOK cfgEnv1 svcCfgEmpty "pre" "" "").result = 1
    ∧ getSelectedServicesP1 svcCfgEmpty "" "" = []
    ∧ (CheckP1 worldOK cfgEnv1 svcCfgEmpty "pre" "" "").result.isSome = true :=
  ⟨rfl,
    ((c7_empty_selection worldOK cfgEnv1 svcCfgEmpty "pre" "" "").1 rfl).1,
    ((c7_empty_selection worldOK cfgEnv1 svcCfgEmpty "pre" "" "").1 rfl).2.2,
    rfl,
    ((c7_empty_selection worldOK cfgEnv1 svcCfgEmpty "pre" "" "").2 rfl).1⟩

/-- C5 (amended, main.go switcher): when the active context already equals
the target, the switcher issues only the current-context read and no
switch; otherwise it issues the switch and, once the switch succeeded, the
node-list probe, whose failure makes the result an error; and a failing
switcher aborts Deploy and Check before any deployment read or write. -/
theorem c5_context_switcher (w : World) (ctx : String) :
    ((∃ out, w.currentContextResult = Except.ok out ∧ trimS out = ctx) →
        switchContextMain w ctx = ([Cmd.currentContext], none))
    ∧ ((∀ out, w.currentContextResult = Except.ok out → trimS out ≠ ctx) →
        Cmd.useContext ctx ∈ (switchContextMain w ctx).1
        ∧ ((switchContextMain w ctx).2 = none → Cmd.getNodes ∈ (switchContextMain w ctx).1)
        ∧ (∀ e, w.getNodesResult = Except.error e →
            (switchContextMain w ctx).2.isSome = true))
    ∧ (∀ (cfg : Config) (s : ServiceConfig) (env si vi : String) (envC : Environment),
        lookupA cfg.environments env = some envC →
        (switchContextMain w envC.context).2.isSome = true →
        ((DeployMain w cfg s env si vi).result.isSome = true
          ∧ ∀ c ∈ (DeployMain w cfg s env si vi).trace,
              isDeployRead c = false ∧ isSetImage c = false)
        ∧ ((CheckMain w cfg s env si vi).result.isSome = true
          ∧ ∀ c ∈ (CheckMain w cfg s env si vi).trace,
              isDeployRead c = false ∧ isSetImage c = false)) := by
  refine ⟨?_, ?_, ?_⟩
  · rintro ⟨out, hceq, ht⟩
    unfold switchContextMain
    rw [hceq]
    simp only []
    rw [if_pos ht]
  · intro h
    rw [switchContextMain_not_active w ctx h]
    refine ⟨List.mem_cons_of_mem _ (switchProbeMain_use_mem w ctx), ?_, ?_⟩
    · intro hok
      exact List.mem_cons_of_mem _ (switchProbeMain_ok_probe w ctx hok)
    · intro e hn
      exact switchProbeMain_nodes_fail w ctx e hn
  · intro cfg s env si vi envC henv hfail
    rcases hsw : switchContextMain w envC.context with ⟨swT, swE⟩
    have hswm := switchContextMain_no_touch w envC.context
    rw [hsw] at hswm
    cases swE with
    | none => rw [hsw] at hfail; cases hfail
    | some e =>
      rw [DeployMain_switch_fail w cfg s env si vi envC swT e henv hsw,
        CheckMain_switch_fail w cfg s env si vi envC swT e henv hsw]
      exact ⟨⟨rfl, fun c hc => ⟨(hswm c hc).2, (hswm c hc).1⟩⟩,
        ⟨rfl, fun c hc => ⟨(hswm c hc).2, (hswm c hc).1⟩⟩⟩

/-- Witness for C5: a world whose active context differs from the target
and whose node probe fails: the switch command is issued and the switcher
fails; and a no-op run when the context already matches. -/
theorem c5_context_switcher_witness :
    (∀ out, worldProbeFails.currentContextResult = Except.ok out → trimS out ≠ "ctx-pre")
    ∧ Cmd.useContext "ctx-pre" ∈ (switchContextMain worldProbeFails "ctx-pre").1
    ∧ (switchContextMain worldProbeFails "ctx-pre").2.isSome = true
    ∧ switchContextMain worldOK "ctx-pre" = ([Cmd.currentContext], none) := by
  have hne : ∀ out, worldProbeFails.currentContextResult = Except.ok out →
      trimS out ≠ "ctx-pre" := by
    intro out h
    have : out = "ctx-other" := by
      have h2 := h
      simp only [worldProbeFails, worldOK] at h2
      injection h2 with h3
      exact h3.symm
    rw [this]
    decide
  exact ⟨hne,
    ((c5_context_switcher worldProbeFails "ctx-pre").2.1 hne).1,
    ((c5_context_switcher worldProbeFails "ctx-pre").2.1 hne).2.2 "noreach" rfl,
    (c5_context_switcher worldOK "ctx-pre").1 ⟨"ctx-pre", rfl, by decide⟩⟩

/-- Counterexample for C5: the `part_001` switcher is not a no-op when the
active context already equals the target — it issues the switch command —
and it never issues a node-list probe. -/
theorem c5_counterexample :
    worldOK.currentContextResult = Except.ok "ctx-pre"
    ∧ trimS "ctx-pre" = "ctx-pre"
    ∧ switchContextP1 worldOK "ctx-pre" = ([Cmd.useContext "ctx-pre"], none)
    ∧ Cmd.getNodes ∉ (switchContextP1 worldOK "ctx-pre").1 := by
  exact ⟨rfl, by decide, rfl, by decide⟩

/-- C6: an image update command appears in main.go Deploy's trace only
after an affirmative (case-insensitive `y`) confirmation; any other input
issues no update, logs the cancellation, and Deploy returns nil (exit 0). -/
theorem c6_confirmation_gate (w : World) (cfg : Config) (s : ServiceConfig)
    (env si vi : String) :
    ((∃ c ∈ (DeployMain w cfg s env si vi).trace, isSetImage c = true) →
        toLowerS w.userInput = "y")
    ∧ (∀ (envC : Environment) (swT : List Cmd),
        lookupA cfg.environments env = some envC →
        switchContextMain w envC.context = (swT, none) →
        getSelectedServicesMain s si vi ≠ [] →
        toLowerS w.userInput ≠ "y" →
        (∀ c ∈ (DeployMain w cfg s env si vi).trace, isSetImage c = false)
        ∧ LogEvent.cancelled ∈ (DeployMain w cfg s env si vi).logs
        ∧ (DeployMain w cfg s env si vi).result = none
        ∧ exitCode (DeployMain w cfg s env si vi).result = 0) := by
  constructor
  · rintro ⟨c, hc, hset⟩
    by_contra hin
    have hfalse : isSetImage c = false := by
      cases henv : lookupA cfg.environments env with
      | none =>
        rw [DeployMain_invalid_env w cfg s env si vi henv] at hc
        simp at hc
      | some envC =>
        rcases hsw : switchContextMain w envC.context with ⟨swT, swE⟩
        have hswm := switchContextMain_no_touch w envC.context
        rw [hsw] at hswm
        cases swE with
        | some e =>
          rw [DeployMain_switch_fail w cfg s env si vi envC swT e henv hsw] at hc
          exact (hswm c hc).1
        | none =>
          by_cases hsel : getSelectedServicesMain s si vi = []
          · rw [DeployMain_no_services w cfg s env si vi envC swT henv hsw hsel] at hc
            rcases List.mem_append.mp hc with h | h
            · exact (hswm c h).1
            · rw [getCurrentVersionsMain_trace] at h
              simp at h
              subst h
              rfl
          · rw [DeployMain_cancelled w cfg s env si vi envC swT henv hsw hsel hin] at hc
            rcases List.mem_append.mp hc with h | h
            · exact (hswm c h).1
            · rw [getCurrentVersionsMain_trace] at h
              simp at h
              subst h
              rfl
    rw [hset] at hfalse
    cases hfalse
  · intro envC swT henv hsw hsel hin
    rw [DeployMain_cancelled w cfg s env si vi envC swT henv hsw hsel hin]
    have hswm := switchContextMain_no_touch w envC.context
    rw [hsw] at hswm
    refine ⟨?_, by simp, rfl, rfl⟩
    intro c hc
    rcases List.mem_append.mp hc with h | h
    · exact (hswm c h).1
    · rw [getCurrentVersionsMain_trace] at h
      simp at h
      subst h
      rfl

/-- Witness for C6: the user answers `n`; no update command is issued, the
cancellation is logged and Deploy returns nil. -/
theorem c6_confirmation_gate_witness :
    toLowerS worldSaysNo.userInput ≠ "y"
    ∧ LogEvent.cancelled ∈ (DeployMain worldSaysNo cfgEnv1 svcCfg1 "pre" "" "").logs
    ∧ (DeployMain worldSaysNo cfgEnv1 svcCfg1 "pre" "" "").result = none
    ∧ exitCode (DeployMain worldSaysNo cfgEnv1 svcCfg1 "pre" "" "").result = 0 :=
  ⟨by decide,
    ((c6_confirmation_gate worldSaysNo cfgEnv1 svcCfg1 "pre" "" "").2
      ⟨"ctx-pre", "reg", "ns"⟩ [Cmd.currentContext] rfl rfl (by decide) (by decide)).2.1,
    ((c6_confirmation_gate worldSaysNo cfgEnv1 svcCfg1 "pre" "" "").2
      ⟨"ctx-pre", "reg", "ns"⟩ [Cmd.currentContext] rfl rfl (by decide) (by decide)).2.2.1,
    ((c6_confirmation_gate worldSaysNo cfgEnv1 svcCfg1 "pre" "" "").2
      ⟨"ctx-pre", "reg", "ns"⟩ [Cmd.currentContext] rfl rfl (by decide) (by decide)).2.2.2⟩

theorem deployPhaseP1_trace (w : World) (sel : SvcMap) (registry ns : String) :
    (deployPhaseP1 w sel registry ns).1
      = sel.map (fun p => Cmd.setImage p.1 (imageOf registry p.1 p.2) ns) := by
  unfold deployPhaseP1 deployServiceP1
  dsimp only
  rw [List.map_map]
  rfl

theorem deployPhaseP1_fail_mem (w : World) (sel : SvcMap) (registry ns : String)
    (p : String × String) (o : String)
    (hp : p ∈ sel) (ho : w.setImageResult p.1 = Except.error o) :
    failMsg p.1 o ∈ (deployPhaseP1 w sel registry ns).2 := by
  unfold deployPhaseP1
  refine List.mem_filterMap.mpr ⟨some (failMsg p.1 o), ?_, rfl⟩
  refine List.mem_map.mpr ⟨deployServiceP1 w p.1 registry ns p.2, ?_, ?_⟩
  · exact List.mem_map.mpr ⟨p, hp, rfl⟩
  · simp [deployServiceP1, ho]

/-- C8 (amended): a failing cluster state query is non-fatal in main.go's
Deploy and Check and in part_001's Deploy — the command proceeds (Check
returns nil; Deploy logs the warning and still issues the updates).  The
part_001 Check, by contrast, returns the error (see the counterexample). -/
theorem c8_snapshot_failure_nonfatal (w : World) (cfg : Config) (s : ServiceConfig)
    (env si vi : String) (envC : Environment) (swT : List Cmd) (msg : String)
    (henv : lookupA cfg.environments env = some envC)
    (hq : w.getDeploymentsResult envC.namespaceName = Except.error msg) :
    (switchContextMain w envC.context = (swT, none) →
      getSelectedServicesMain s si vi ≠ [] →
      (CheckMain w cfg s env si vi).result = none
      ∧ (toLowerS w.userInput = "y" →
          (DeployMain w cfg s env si vi).result = none
          ∧ LogEvent.snapshotWarn ∈ (DeployMain w cfg s env si vi).logs
          ∧ ∃ c ∈ (DeployMain w cfg s env si vi).trace, isSetImage c = true))
    ∧ (switchContextP1 w envC.context = (swT, none) →
        getSelectedServicesP1 s si vi ≠ [] →
        toLowerS w.userInput = "y" →
        ∃ c ∈ (DeployP1 w cfg s env si vi).trace, isSetImage c = true) := by
  have hwarn : (getCurrentVersionsMain w s envC.namespaceName).2.2.isSome = true := by
    unfold getCurrentVersionsMain
    rw [hq]
    rfl
  constructor
  · intro hsw hsel
    constructor
    · rw [CheckMain_ok w cfg s env si vi envC swT henv hsw]
      rcases hsel2 : getSelectedServicesMain s si vi with _ | ⟨a, t⟩
      · exact absurd hsel2 hsel
      · rfl
    · intro hin
      obtain ⟨hres, htrace, hlog⟩ :=
        DeployMain_confirmed w cfg s env si vi envC swT henv hsw hsel hin
      refine ⟨hres, hlog hwarn, ?_⟩
      rcases hsel2 : getSelectedServicesMain s si vi with _ | ⟨a, t⟩
      · exact absurd hsel2 hsel
      · refine ⟨(deployServiceMain w a.1 envC.registry envC.namespaceName a.2).1,
          ?_, rfl⟩
        rw [htrace, hsel2]
        refine List.mem_append.mpr (Or.inl (List.mem_append.mpr (Or.inr ?_)))
        exact List.mem_map.mpr ⟨a, List.mem_cons_self _ _, rfl⟩
  · intro hsw hsel hin
    obtain ⟨_, _, htrace⟩ :=
      DeployP1_confirmed w cfg s env si vi envC swT henv hsw hsel hin
    rcases hsel2 : getSelectedServicesP1 s si vi with _ | ⟨a, t⟩
    · exact absurd hsel2 hsel
    · refine ⟨Cmd.setImage a.1 (imageOf envC.registry a.1 a.2) envC.namespaceName,
        ?_, rfl⟩
      rw [htrace]
      refine List.mem_append.mpr (Or.inl (List.mem_append.mpr (Or.inr ?_)))
      rw [deployPhaseP1_trace, hsel2]
      exact List.mem_map.mpr ⟨a, List.mem_cons_self _ _, rfl⟩

/-- Witness for C8: the deployment query fails with `down`; main.go's
Check still returns nil and main.go's Deploy proceeds to issue the update. -/
theorem c8_snapshot_failure_nonfatal_witness :
    worldQueryFails.getDeploymentsResult "ns" = Except.error "down"
    ∧ (CheckMain worldQueryFails cfgEnv1 svcCfg1 "pre" "" "").result = none
    ∧ (DeployMain worldQueryFails cfgEnv1 svcCfg1 "pre" "" "").result = none
    ∧ LogEvent.snapshotWarn ∈ (DeployMain worldQueryFails cfgEnv1 svcCfg1 "pre" "" "").logs :=
  ⟨rfl,
    ((c8_snapshot_failure_nonfatal worldQueryFails cfgEnv1 svcCfg1 "pre" "" ""
        ⟨"ctx-pre", "reg", "ns"⟩ [Cmd.currentContext] "down" rfl rfl).1 rfl (by decide)).1,
    (((c8_snapshot_failure_nonfatal worldQueryFails cfgEnv1 svcCfg1 "pre" "" ""
        ⟨"ctx-pre", "reg", "ns"⟩ [Cmd.currentContext] "down" rfl rfl).1 rfl (by decide)).2
      (by decide)).1,
    (((c8_snapshot_failure_nonfatal worldQueryFails cfgEnv1 svcCfg1 "pre" "" ""
        ⟨"ctx-pre", "reg", "ns"⟩ [Cmd.currentContext] "down" rfl rfl).1 rfl (by decide)).2
      (by decide)).2.1⟩

/-- Counterexample for C8: in the `part_001` Check path the failing state
query is fatal — Check returns the query error instead of proceeding. -/
theorem c8_counterexample :
    (CheckP1 worldQueryFails cfgEnv1 svcCfg1 "pre" "" "").result
      = some "获取部署信息失败: down" := by
  decide

/-- C2 (amended, part_001 executor): one image update is issued per
resolved (service, version) pair — regardless of any other pair's outcome
— and nothing else is issued by the apply phase; every failed pair's
diagnostic is collected; if any diagnostic was collected Deploy returns an
error joining all of them, otherwise nil.  (main.go's Deploy prints the
per-service outcomes but returns nil even on failures — see the
counterexample.) -/
theorem c2_executor (w : World) (cfg : Config) (s : ServiceConfig)
    (env si vi : String) (envC : Environment) (swT : List Cmd)
    (henv : lookupA cfg.environments env = some envC)
    (hsw : switchContextP1 w envC.context = (swT, none))
    (hsel : getSelectedServicesP1 s si vi ≠ [])
    (hin : toLowerS w.userInput = "y") :
    (∀ p ∈ getSelectedServicesP1 s si vi,
        Cmd.setImage p.1 (imageOf envC.registry p.1 p.2) envC.namespaceName
          ∈ (DeployP1 w cfg s env si vi).trace)
    ∧ (((DeployP1 w cfg s env si vi).trace.filter isSetImage).length
        = (getSelectedServicesP1 s si vi).length)
    ∧ (∀ c ∈ (DeployP1 w cfg s env si vi).trace, isSetImage c = true →
        ∃ p ∈ getSelectedServicesP1 s si vi,
          c = Cmd.setImage p.1 (imageOf envC.registry p.1 p.2) envC.namespaceName)
    ∧ (∀ p ∈ getSelectedServicesP1 s si vi, ∀ o,
        w.setImageResult p.1 = Except.error o →
        failMsg p.1 o ∈ (deployPhaseP1 w (getSelectedServicesP1 s si vi) envC.registry
          envC.namespaceName).2)
    ∧ ((deployPhaseP1 w (getSelectedServicesP1 s si vi) envC.registry
          envC.namespaceName).2 ≠ [] →
        (DeployP1 w cfg s env si vi).result
          = some ("部署过程中出现错误:\n" ++ String.intercalate "\n"
              (deployPhaseP1 w (getSelectedServicesP1 s si vi) envC.registry
                envC.namespaceName).2))
    ∧ ((deployPhaseP1 w (getSelectedServicesP1 s si vi) envC.registry
          envC.namespaceName).2 = [] →
        (DeployP1 w cfg s env si vi).result = none) := by
  obtain ⟨hok, hfail, htrace⟩ :=
    DeployP1_confirmed w cfg s env si vi envC swT henv hsw hsel hin
  have hswt := switchContextP1_trace w envC.context
  rw [hsw] at hswt
  dsimp only at hswt
  have hcvt := getCurrentVersionsMain_trace w s envC.namespaceName
  rw [hswt, hcvt, deployPhaseP1_trace] at htrace
  refine ⟨?_, ?_, ?_, ?_, hfail, hok⟩
  · intro p hp
    rw [htrace]
    refine List.mem_append.mpr (Or.inl (List.mem_append.mpr (Or.inr ?_)))
    exact List.mem_map.mpr ⟨p, hp, rfl⟩
  · rw [htrace]
    by_cases hif : (deployPhaseP1 w (getSelectedServicesP1 s si vi) envC.registry
        envC.namespaceName).2.isEmpty <;>
      simp [hif, List.filter_append, isSetImage, List.filter_map]
  · intro c hc hset
    rw [htrace] at hc
    rcases List.mem_append.mp hc with h | h
    · rcases List.mem_append.mp h with h2 | h2
      · rcases List.mem_append.mp h2 with h3 | h3
        · simp at h3; subst h3; cases hset
        · simp at h3; subst h3; cases hset
      · rcases List.mem_map.mp h2 with ⟨p, hp, hpc⟩
        exact ⟨p, hp, hpc.symm⟩
    · by_cases hif : (deployPhaseP1 w (getSelectedServicesP1 s si vi) envC.registry
          envC.namespaceName).2.isEmpty
      · rw [if_pos hif] at h
        simp at h
        subst h
        cases hset
      · rw [if_neg hif] at h
        cases h
  · intro p hp o ho
    exact deployPhaseP1_fail_mem w (getSelectedServicesP1 s si vi) envC.registry
      envC.namespaceName p o hp ho

/-- Witness for C2: one selected service whose update fails with `boom`;
the update command is issued, the diagnostic is collected, and Deploy
(part_001) returns the joined failure message. -/
theorem c2_executor_witness :
    ("docs-fe", "v3.48.2") ∈ getSelectedServicesP1 svcCfg1 "" ""
    ∧ Cmd.setImage "docs-fe" (imageOf "reg" "docs-fe" "v3.48.2") "ns"
        ∈ (DeployP1 worldSetImageFails cfgEnv1 svcCfg1 "pre" "" "").trace
    ∧ failMsg "docs-fe" "boom"
        ∈ (deployPhaseP1 worldSetImageFails (getSelectedServicesP1 svcCfg1 "" "") "reg"
            "ns").2
    ∧ (DeployP1 worldSetImageFails cfgEnv1 svcCfg1 "pre" "" "").result
        = some ("部署过程中出现错误:\n"
            ++ String.intercalate "\n"
              (deployPhaseP1 worldSetImageFails (getSelectedServicesP1 svcCfg1 "" "")
                "reg" "ns").2) :=
  ⟨by decide,
    (c2_executor worldSetImageFails cfgEnv1 svcCfg1 "pre" "" ""
        ⟨"ctx-pre", "reg", "ns"⟩ [Cmd.useContext "ctx-pre"] rfl rfl (by decide)
        (by decide)).1 ("docs-fe", "v3.48.2") (by decide),
    (c2_executor worldSetImageFails cfgEnv1 svcCfg1 "pre" "" ""
        ⟨"ctx-pre", "reg", "ns"⟩ [Cmd.useContext "ctx-pre"] rfl rfl (by decide)
        (by decide)).2.2.2.1 ("docs-fe", "v3.48.2") (by decide) "boom" rfl,
    (c2_executor worldSetImageFails cfgEnv1 svcCfg1 "pre" "" ""
        ⟨"ctx-pre", "reg", "ns"⟩ [Cmd.useContext "ctx-pre"] rfl rfl (by decide)
        (by decide)).2.2.2.2.1 (by decide)⟩

/-- Counterexample for C2: in main.go, a Deploy run in which the single
update fails (logged as a failure) still returns nil, so the process exits
0 — the claim's non-zero exit on failure does not hold for main.go. -/
theorem c2_counterexample :
    LogEvent.deployResult "❌ docs-fe 发布失败: boom"
        ∈ (DeployMain worldSetImageFails cfgEnv1 svcCfg1 "pre" "" "").logs
    ∧ (DeployMain worldSetImageFails cfgEnv1 svcCfg1 "pre" "" "").result = none
    ∧ exitCode (DeployMain worldSetImageFails cfgEnv1 svcCfg1 "pre" "" "").result = 0 := by
  exact ⟨by decide, by decide, by decide⟩

/-- Counterexample for C4, in two corners.  First: with one enabled single
service (default `v3.48.2`) and override `v9.9.9`, the empty scope filter
resolves to the default while the explicit filter listing that service
resolves to the override.  Second: with `x` both an enabled single service
and an enabled group, and an earlier enabled group `h` containing `x`, the
empty filter leaves `x` at `h`'s version `hv` while the explicit filter
`x,h,x` (even with an empty override) leaves it at the single-service
version `sv` — the duplicated token's single-service write lands last. -/
theorem c4_counterexample :
    (enabledNamesMain svcCfg1 = ["docs-fe"]
      ∧ splitChar ',' "docs-fe" = ["docs-fe"]
      ∧ mapFind (getSelectedServicesMain svcCfg1 "" "v9.9.9") "docs-fe" = some "v3.48.2"
      ∧ mapFind (getSelectedServicesMain svcCfg1 "docs-fe" "v9.9.9") "docs-fe"
          = some "v9.9.9")
    ∧ (enabledNamesMain svcCfgDup2 = ["x", "h", "x"]
      ∧ splitChar ',' "x,h,x" = ["x", "h", "x"]
      ∧ mapFind (getSelectedServicesMain svcCfgDup2 "" "") "x" = some "hv"
      ∧ mapFind (getSelectedServicesMain svcCfgDup2 "x,h,x" "") "x" = some "sv") := by
  exact ⟨⟨by decide, by decide, by decide, by decide⟩,
    ⟨by decide, by decide, by decide, by decide⟩⟩

/-- C4 (amended): provided no name is simultaneously an enabled single
service and an enabled group (both counterexample corners excluded),
resolving with the empty scope filter returns the same map (indeed the
same entry list) as resolving with a scope filter that lists every enabled
single service name and then every enabled group name — for main.go's
resolver with an empty versionOverride (it ignores the override in the
empty-scope branch), and for part_001's resolver with any versionOverride
(both its branches apply it), whose token trimming additionally requires
the listed names to be whitespace-trimmed. -/
theorem c4_scope_equivalence (s : ServiceConfig) (servicesInput : String)
    (hnd1 : (s.singleServices.map Prod.fst).Nodup)
    (hnd2 : (s.serviceGroups.map Prod.fst).Nodup)
    (hdisj : ∀ p ∈ s.singleServices, p.2.enabled = true →
        ∀ q ∈ s.serviceGroups, q.2.enabled = true → p.1 ≠ q.1)
    (hne : servicesInput ≠ "")
    (hsplit : splitChar ',' servicesInput = enabledNamesMain s) :
    getSelectedServicesMain s servicesInput ""
      = getSelectedServicesMain s "" ""
    ∧ (∀ versionInput, (∀ n ∈ enabledNamesMain s, trimS n = n) →
        getSelectedServicesP1 s servicesInput versionInput
          = getSelectedServicesP1 s "" versionInput) := by
  refine ⟨?_, ?_⟩
  have hA : ∀ m : SvcMap,
      (((s.singleServices.filter (fun p => p.2.enabled)).map (fun p => p.1)).foldl
        (selectServiceTokenMain s "") m)
      = s.singleServices.foldl
          (fun m p => if p.2.enabled then upsert m p.1 p.2.version else m) m := by
    intro m
    rw [List.foldl_map]
    rw [foldl_congr_mem _ (fun m p => upsert m p.1 p.2.version) _ m ?_]
    · exact foldl_filter_eq (fun p => p.2.enabled)
        (fun m p => upsert m p.1 p.2.version) s.singleServices m
    · intro m2 p hp
      have hmem : p ∈ s.singleServices := (List.mem_filter.mp hp).1
      have hen : p.2.enabled = true := (List.mem_filter.mp hp).2
      have hmem2 : (p.1, p.2) ∈ s.singleServices := by
        rw [Prod.mk.eta]; exact hmem
      unfold selectServiceTokenMain
      rw [lookupA_eq_of_nodup hnd1 hmem2]
      dsimp only
      rw [if_pos hen, selectVersion_empty]
      cases hg : lookupA s.serviceGroups p.1 with
      | none => rfl
      | some g =>
        cases hgen : g.enabled with
        | false => simp [hgen]
        | true =>
          exact absurd rfl (hdisj (p.1, p.2) hmem2 hen (p.1, g) (lookupA_mem hg) hgen)
  have hB : ∀ m : SvcMap,
      (((s.serviceGroups.filter (fun p => p.2.enabled)).map (fun p => p.1)).foldl
        (selectServiceTokenMain s "") m)
      = s.serviceGroups.foldl
          (fun m p =>
            if p.2.enabled then
              p.2.services.foldl (fun m svc => upsert m svc p.2.version) m
            else m) m := by
    intro m
    rw [List.foldl_map]
    rw [foldl_congr_mem _
      (fun m q => q.2.services.foldl (fun m svc => upsert m svc q.2.version) m) _ m ?_]
    · exact foldl_filter_eq (fun q => q.2.enabled)
        (fun m q => q.2.services.foldl (fun m svc => upsert m svc q.2.version) m)
        s.serviceGroups m
    · intro m2 q hq
      have hmem : q ∈ s.serviceGroups := (List.mem_filter.mp hq).1
      have hen : q.2.enabled = true := (List.mem_filter.mp hq).2
      have hmem2 : (q.1, q.2) ∈ s.serviceGroups := by
        rw [Prod.mk.eta]; exact hmem
      have hm1 : (match lookupA s.singleServices q.1 with
          | some info =>
              if info.enabled then upsert m2 q.1 (selectVersion "" info.version)
              else m2
          | none => m2) = m2 := by
        cases hs : lookupA s.singleServices q.1 with
        | none => rfl
        | some info =>
          cases hien : info.enabled with
          | false => simp [hien]
          | true =>
            exact absurd rfl
              (hdisj (q.1, info) (lookupA_mem hs) hien (q.1, q.2) hmem2 hen)
      unfold selectServiceTokenMain
      rw [lookupA_eq_of_nodup hnd2 hmem2]
      dsimp only
      rw [if_pos hen, hm1]
      simp only [selectVersion_empty]
  unfold getSelectedServicesMain
  rw [if_neg hne, if_pos rfl, hsplit]
  unfold enabledNamesMain
  rw [List.foldl_append, hA, hB]
  intro versionInput htrim
  have hA1 : ∀ m : SvcMap,
      (((s.singleServices.filter (fun p => p.2.enabled)).map (fun p => p.1)).foldl
        (selectServiceTokenP1 s versionInput) m)
      = s.singleServices.foldl
          (fun m p =>
            if p.2.enabled then upsert m p.1 (selectVersion versionInput p.2.version)
            else m) m := by
    intro m
    rw [List.foldl_map]
    rw [foldl_congr_mem _
      (fun m p => upsert m p.1 (selectVersion versionInput p.2.version)) _ m ?_]
    · exact foldl_filter_eq (fun p => p.2.enabled)
        (fun m p => upsert m p.1 (selectVersion versionInput p.2.version))
        s.singleServices m
    · intro m2 p hp
      have hmem : p ∈ s.singleServices := (List.mem_filter.mp hp).1
      have hen : p.2.enabled = true := (List.mem_filter.mp hp).2
      have hmem2 : (p.1, p.2) ∈ s.singleServices := by
        rw [Prod.mk.eta]; exact hmem
      have htr : trimS p.1 = p.1 :=
        htrim p.1 (List.mem_append.mpr (Or.inl (List.mem_map.mpr ⟨p, hp, rfl⟩)))
      unfold selectServiceTokenP1
      dsimp only
      rw [htr, lookupA_eq_of_nodup hnd1 hmem2]
      dsimp only
      rw [if_pos hen]
  have hB1 : ∀ m : SvcMap,
      (((s.serviceGroups.filter (fun p => p.2.enabled)).map (fun p => p.1)).foldl
        (selectServiceTokenP1 s versionInput) m)
      = s.serviceGroups.foldl
          (fun m p =>
            if p.2.enabled then
              p.2.services.foldl
                (fun m svc => upsert m svc (selectVersion versionInput p.2.version)) m
            else m) m := by
    intro m
    rw [List.foldl_map]
    rw [foldl_congr_mem _
      (fun m q => q.2.services.foldl
        (fun m sub => upsert m sub (selectVersion versionInput q.2.version)) m) _ m ?_]
    · exact foldl_filter_eq (fun q => q.2.enabled)
        (fun m q => q.2.services.foldl
          (fun m sub => upsert m sub (selectVersion versionInput q.2.version)) m)
        s.serviceGroups m
    · intro m2 q hq
      have hmem : q ∈ s.serviceGroups := (List.mem_filter.mp hq).1
      have hen : q.2.enabled = true := (List.mem_filter.mp hq).2
      have hmem2 : (q.1, q.2) ∈ s.serviceGroups := by
        rw [Prod.mk.eta]; exact hmem
      have htr : trimS q.1 = q.1 :=
        htrim q.1 (List.mem_append.mpr (Or.inr (List.mem_map.mpr ⟨q, hq, rfl⟩)))
      unfold selectServiceTokenP1
      dsimp only
      rw [htr, lookupA_eq_of_nodup hnd2 hmem2]
      dsimp only
      cases hs : lookupA s.singleServices q.1 with
      | none => rw [if_pos hen]
      | some info =>
        cases hien : info.enabled with
        | false => simp [hien, hen]
        | true =>
          exact absurd rfl
            (hdisj (q.1, info) (lookupA_mem hs) hien (q.1, q.2) hmem2 hen)
  unfold getSelectedServicesP1
  rw [if_neg hne, if_pos rfl, hsplit]
  unfold enabledNamesMain
  rw [List.foldl_append, hA1, hB1]

/-- Witness for C4: one enabled single service plus one enabled group; the
explicit filter `docs-fe,nft` resolves to the same list as the empty
filter, in main.go's resolver with an empty override and in part_001's
resolver with the override `v9.9.9`. -/
theorem c4_scope_equivalence_witness :
    (svcCfg2.singleServices.map Prod.fst).Nodup
    ∧ (svcCfg2.serviceGroups.map Prod.fst).Nodup
    ∧ splitChar ',' "docs-fe,nft" = enabledNamesMain svcCfg2
    ∧ (∀ n ∈ enabledNamesMain svcCfg2, trimS n = n)
    ∧ getSelectedServicesMain svcCfg2 "docs-fe,nft" ""
        = getSelectedServicesMain svcCfg2 "" ""
    ∧ getSelectedServicesP1 svcCfg2 "docs-fe,nft" "v9.9.9"
        = getSelectedServicesP1 svcCfg2 "" "v9.9.9" :=
  ⟨by decide, by decide, by decide, by decide,
    (c4_scope_equivalence svcCfg2 "docs-fe,nft" (by decide) (by decide) (by decide)
      (by decide) (by decide)).1,
    (c4_scope_equivalence svcCfg2 "docs-fe,nft" (by decide) (by decide) (by decide)
      (by decide) (by decide)).2 "v9.9.9" (by decide)⟩

end EKS
